import Mathlib

/-!
# The signing transport of package `s3` (`transport.go`)

A shallow embedding of `Transport.RoundTrip` and `copyHeader`.

* Go strings are byte sequences; header keys and values are Lean strings whose
  characters are read through their code points (every non-ASCII character is
  an invalid header byte, exactly like each of its UTF-8 bytes).
* A Go `http.Header` is a `map[string][]string`.  It is represented by the list
  of its entries; the order of the list is the order in which `range` visits
  the entries (Go leaves that order unspecified, so every theorem quantifies
  over all orders).
* Pointers (`*http.Request`, `*url.URL`) and map references are addresses into
  a heap, so that sharing between the caller's request and the copy made by
  `RoundTrip` is visible.
* The signer (`Service.Sign`), `DefaultService`, the delegate
  `http.RoundTripper` and `http.DefaultTransport` are declared outside
  `transport.go`; they are parameters (`Env`).  The clock reading of
  `time.Now()` is a parameter as well.
* `UTC().Format(http.TimeFormat)` is `httpTimeFormat`; it is compared with a
  description of the calendar that is independent of it (`unixOfUTC`,
  `httpDate`).
-/

set_option linter.dupNamespace false

namespace S3

/-! ## Canonical MIME header keys (`net/textproto`) -/

/-- The header-field token bytes of `net/textproto` (`validHeaderFieldByte`):
digits, letters and the punctuation of an RFC 7230 token. -/
def isTokenByte (b : Nat) : Bool :=
  (48 ≤ b && b ≤ 57) || (65 ≤ b && b ≤ 90) || (97 ≤ b && b ≤ 122) ||
    [33, 35, 36, 37, 38, 39, 42, 43, 45, 46, 94, 95, 96, 124, 126].contains b

/-- One step of the canonicalisation loop: upper case at the start and after a
dash, lower case elsewhere. -/
def canonByte (upper : Bool) (b : Nat) : Nat :=
  if upper = true ∧ 97 ≤ b ∧ b ≤ 122 then b - 32
  else if upper = false ∧ 65 ≤ b ∧ b ≤ 90 then b + 32
  else b

/-- The canonicalisation loop; `upper` is true at the start and after a dash
(byte 45). -/
def canonBytes : Bool → List Nat → List Nat
  | _, [] => []
  | upper, b :: bs =>
    let c := canonByte upper b
    c :: canonBytes (c == 45) bs

/-- Go's `textproto.CanonicalMIMEHeaderKey`, used by `http.Header.Add`, `Get`
and `Set`: a key that holds a byte that is not a header token byte (a space,
for instance) is returned unchanged; otherwise the first letter and every
letter after a dash become upper case and all other letters lower case. -/
def CanonicalMIMEHeaderKey (s : String) : String :=
  let bs := s.toList.map Char.toNat
  if bs.all isTokenByte then String.mk ((canonBytes true bs).map Char.ofNat) else s

/-- ASCII lower-casing of one byte. -/
def lowerByte (b : Nat) : Nat := if 65 ≤ b ∧ b ≤ 90 then b + 32 else b

/-- The bytes of a key with ASCII letters lower-cased: two keys differ only in
letter case when their folded bytes agree. -/
def foldBytes (s : String) : List Nat := s.toList.map (fun c => lowerByte c.toNat)

/-- Every byte of the key is a header token byte. -/
def isTokenKey (s : String) : Bool := (s.toList.map Char.toNat).all isTokenByte

/-! ## `http.Header` -/

/-- Go's `http.Header`, a `map[string][]string`, as the list of its entries in
iteration order. -/
abbrev Header := List (String × List String)

/-- The keys of a map are pairwise distinct. -/
def Header.WF (h : Header) : Prop := (h.map Prod.fst).Nodup

/-- Map lookup that tells an absent key (`none`) from a key bound to an empty
slice. -/
def Header.entry : Header → String → Option (List String)
  | [], _ => none
  | (k', vs) :: rest, k => if k' = k then some vs else Header.entry rest k

/-- Go's `h[k]`: the slice stored under `k`, the nil (empty) slice when `k` is
absent. -/
def Header.values (h : Header) (k : String) : List String :=
  (h.entry k).getD []

/-- Go's `h[k] = vs`. -/
def Header.store : Header → String → List String → Header
  | [], k, vs => [(k, vs)]
  | (k', vs') :: rest, k, vs =>
    if k' = k then (k, vs) :: rest else (k', vs') :: Header.store rest k vs

/-- Go's `Header.Add`: `key = CanonicalMIMEHeaderKey(key); h[key] = append(h[key], value)`. -/
def Header.Add (h : Header) (key value : String) : Header :=
  let k := CanonicalMIMEHeaderKey key
  h.store k (h.values k ++ [value])

/-- Go's `Header.Set`: `h[CanonicalMIMEHeaderKey(key)] = []string{value}`. -/
def Header.Set (h : Header) (key value : String) : Header :=
  h.store (CanonicalMIMEHeaderKey key) [value]

/-- Go's `Header.Get`: the first value stored under the canonical key, `""`
when there is none. -/
def Header.Get (h : Header) (key : String) : String :=
  match h.values (CanonicalMIMEHeaderKey key) with
  | [] => ""
  | v :: _ => v

/-- The function `copyHeader` of `transport.go`:
`for k, vv := range src { for _, v := range vv { dst.Add(k, v) } }`. -/
def copyHeader (dst src : Header) : Header :=
  src.foldl (fun d kv => kv.2.foldl (fun d v => d.Add kv.1 v) d) dst

/-- The values that the entries of `src` whose key has canonical form `c`
hold, concatenated in iteration order. -/
def Header.contrib (src : Header) (c : String) : List String :=
  (src.filter (fun kv => CanonicalMIMEHeaderKey kv.1 = c)).flatMap (fun kv => kv.2)

/-- No key is bound to an empty slice. -/
def Header.NoEmpty (h : Header) : Prop := ∀ k, h.entry k ≠ some []

/-! ## `time.Now().UTC().Format(http.TimeFormat)` -/

/-- Go's `appendInt` of package `time`: a sign for a negative number, then the
decimal digits padded with zeros to `width`. -/
def appendInt (x : Int) (width : Nat) : String :=
  let ds := Nat.toDigits 10 x.natAbs
  (if x < 0 then "-" else "") ++ String.mk (List.replicate (width - ds.length) (Char.ofNat 48) ++ ds)

/-- Short weekday names, Sunday first. -/
def shortDayNames : List String := ["Sun", "Mon", "Tue", "Wed", "Thu", "Fri", "Sat"]

/-- Short month names. -/
def shortMonthNames : List String :=
  ["Jan", "Feb", "Mar", "Apr", "May", "Jun", "Jul", "Aug", "Sep", "Oct", "Nov", "Dec"]

/-- Year, month (1-12) and day (1-31) of the proleptic Gregorian calendar for a
number of days since 1970-01-01. -/
def civilFromDays (days : Int) : Int × Nat × Nat :=
  let z := days + 719468
  let era := Int.fdiv z 146097
  let doe := (z - era * 146097).toNat
  let yoe := (doe - doe / 1460 + doe / 36524 - doe / 146096) / 365
  let doy := doe - (365 * yoe + yoe / 4 - yoe / 100)
  let mp := (5 * doy + 2) / 153
  let d := doy - (153 * mp + 2) / 5 + 1
  let m := if mp < 10 then mp + 3 else mp - 9
  let y := (yoe : Int) + era * 400 + (if m ≤ 2 then 1 else 0)
  (y, m, d)

/-- The clock reading `unix` (seconds since 1970-01-01T00:00:00Z) in UTC,
rendered with the layout `http.TimeFormat = "Mon, 02 Jan 2006 15:04:05 GMT"`. -/
def httpTimeFormat (unix : Int) : String :=
  let days := Int.fdiv unix 86400
  let secs := (unix - days * 86400).toNat
  let (y, m, d) := civilFromDays days
  let wd := (Int.fmod (days + 4) 7).toNat
  shortDayNames.getD wd "" ++ ", " ++ appendInt d 2 ++ " " ++ shortMonthNames.getD (m - 1) "" ++ " " ++
    appendInt y 4 ++ " " ++ appendInt (secs / 3600) 2 ++ ":" ++ appendInt (secs / 60 % 60) 2 ++ ":" ++
    appendInt (secs % 60) 2 ++ " GMT"

/-! ## The HTTP date of an instant, from the calendar (specification side)

These definitions do not come from the program.  They say, in the words of the
calendar, which instant a date and time of day in UTC denote, and how an HTTP
date is written; the rendering of the program is compared with them. -/

/-- Specification side: the Gregorian leap-year rule. -/
def isLeapYear (y : Int) : Bool := y % 4 = 0 && (y % 100 ≠ 0 || y % 400 = 0)

/-- Specification side: the number of days of month `m` (1-12) of year `y`. -/
def daysInMonth (y : Int) (m : Nat) : Nat :=
  if m = 2 then (if isLeapYear y then 29 else 28)
  else if m = 4 ∨ m = 6 ∨ m = 9 ∨ m = 11 then 30
  else 31

/-- Specification side: the number of days of year `y` before month `m`, the sum
of the lengths of the months 1 .. m-1. -/
def daysBeforeMonth (y : Int) (m : Nat) : Nat :=
  ((List.range (m - 1)).map (fun i => daysInMonth y (i + 1))).sum

/-- Specification side: the number of leap years among the years 1 .. y-1 (and
its extension to the years before). -/
def leapYearsBefore (y : Int) : Int := (y - 1) / 4 - (y - 1) / 100 + (y - 1) / 400

/-- Specification side: the number of days from 1 January 1970 to 1 January of
year `y`: 365 for each year in between and one more for each leap year. -/
def daysBeforeYear (y : Int) : Int :=
  365 * (y - 1970) + (leapYearsBefore y - leapYearsBefore 1970)

/-- Specification side: the number of days from 1 January 1970 to day `d` of
month `m` of year `y`. -/
def daysOfCivil (y : Int) (m d : Nat) : Int :=
  daysBeforeYear y + (daysBeforeMonth y m : Int) + ((d : Int) - 1)

/-- Specification side: the instant, in seconds since 1970-01-01T00:00:00Z, of
the time `hh:mm:ss` UTC on day `d` of month `m` of year `y`. -/
def unixOfUTC (y : Int) (m d hh mm ss : Nat) : Int :=
  daysOfCivil y m d * 86400 + (hh : Int) * 3600 + (mm : Int) * 60 + (ss : Int)

/-- Specification side: the day of the week (0 is Sunday) of the day that lies
`days` days after 1 January 1970, which was a Thursday. -/
def weekdayOf (days : Int) : Nat := ((days + 4) % 7).toNat

/-- Specification side: the day names of an HTTP date. -/
def dayName : Nat → String
  | 0 => "Sun"
  | 1 => "Mon"
  | 2 => "Tue"
  | 3 => "Wed"
  | 4 => "Thu"
  | 5 => "Fri"
  | 6 => "Sat"
  | _ => ""

/-- Specification side: the month names of an HTTP date. -/
def monthName : Nat → String
  | 1 => "Jan"
  | 2 => "Feb"
  | 3 => "Mar"
  | 4 => "Apr"
  | 5 => "May"
  | 6 => "Jun"
  | 7 => "Jul"
  | 8 => "Aug"
  | 9 => "Sep"
  | 10 => "Oct"
  | 11 => "Nov"
  | 12 => "Dec"
  | _ => ""

/-- Specification side: the decimal digit `k`. -/
def digitOf (k : Nat) : Char := Char.ofNat (48 + k % 10)

/-- Specification side: a number below 100 written with two digits. -/
def twoDigits (n : Nat) : String := String.mk [digitOf (n / 10), digitOf n]

/-- Specification side: a number below 10000 written with four digits. -/
def fourDigits (n : Nat) : String :=
  String.mk [digitOf (n / 1000), digitOf (n / 100), digitOf (n / 10), digitOf n]

/-- Specification side: the year of a date as Go's layout element `2006` writes
it: four digits for the years 0 to 9999 (the years an HTTP date can carry);
beyond them all the digits of the year, and a minus sign before the year when
it is negative. -/
def yearText (y : Int) : String :=
  (if y < 0 then "-" else "") ++
    (if y.natAbs ≤ 9999 then fourDigits y.natAbs else Nat.repr y.natAbs)

/-- Specification side: the HTTP date `Www, DD Mon YYYY HH:MM:SS GMT` (the
layout `http.TimeFormat`) of weekday `wd`, day `d`, month `m`, year `y` and
time `hh:mm:ss`. -/
def httpDate (wd d m : Nat) (y : Int) (hh mm ss : Nat) : String :=
  dayName wd ++ ", " ++ twoDigits d ++ " " ++ monthName m ++ " " ++ yearText y ++ " " ++
    twoDigits hh ++ ":" ++ twoDigits mm ++ ":" ++ twoDigits ss ++ " GMT"

/-! ## Requests, URLs and the heap -/

/-- A heap address. -/
abbrev Addr := Nat

/-- Go's `url.Userinfo`; a `url.URL` points to one, and it is immutable. -/
structure Userinfo where
  username : String
  password : String
  passwordSet : Bool
deriving DecidableEq, Repr, Inhabited

/-- Go's `url.URL`. -/
structure URL where
  Scheme : String
  Opaque : String
  User : Option Userinfo
  Host : String
  Path : String
  RawPath : String
  OmitHost : Bool
  ForceQuery : Bool
  RawQuery : String
  Fragment : String
  RawFragment : String
deriving DecidableEq, Repr, Inhabited

/-- Go's `http.Request`.  `U` and `H` are what the `URL` and `Header` fields
hold: addresses in a request stored on the heap (`RequestCell`), the URL and
header map themselves in the request as a callee reads it (`RequestView`).
The other fields of reference type (body, forms, trailer, ...) hold an opaque
handle: an assignment of the struct copies the handle, not what it refers to. -/
structure Request (U H : Type) where
  Method : String
  URL : U
  Proto : String
  ProtoMajor : Int
  ProtoMinor : Int
  Header : H
  Body : Option Nat
  GetBody : Option Nat
  ContentLength : Int
  TransferEncoding : List String
  Close : Bool
  Host : String
  Form : Option Nat
  PostForm : Option Nat
  MultipartForm : Option Nat
  Trailer : Option Nat
  RemoteAddr : String
  RequestURI : String
  TLS : Option Nat
  Cancel : Option Nat
  Response : Option Nat
  ctx : Option Nat
deriving DecidableEq, Repr, Inhabited

/-- A request struct as stored in memory: `URL` is a `*url.URL`, `Header` a map
reference; `none` is nil. -/
abbrev RequestCell := Request (Option Addr) (Option Addr)

/-- A request as read through a `*http.Request`: the struct together with the
URL and the header map it points to. -/
abbrev RequestView := Request URL Header

/-- The same request struct with other contents in the `URL` and `Header`
fields. -/
def Request.retarget {U H U1 H1 : Type} (q : Request U H) (u : U1) (h : H1) : Request U1 H1 :=
  { Method := q.Method, URL := u, Proto := q.Proto, ProtoMajor := q.ProtoMajor,
    ProtoMinor := q.ProtoMinor, Header := h, Body := q.Body, GetBody := q.GetBody,
    ContentLength := q.ContentLength, TransferEncoding := q.TransferEncoding,
    Close := q.Close, Host := q.Host, Form := q.Form, PostForm := q.PostForm,
    MultipartForm := q.MultipartForm, Trailer := q.Trailer, RemoteAddr := q.RemoteAddr,
    RequestURI := q.RequestURI, TLS := q.TLS, Cancel := q.Cancel, Response := q.Response,
    ctx := q.ctx }

/-- The memory that `RoundTrip` reads and writes: request structs, URL structs
and header maps, each addressed by its index. -/
structure Heap where
  reqs : List RequestCell
  urls : List URL
  hdrs : List Header
deriving DecidableEq, Repr, Inhabited

/-- Apply `f` to the element at index `i`, if there is one. -/
def updateAt {α : Type} (l : List α) (i : Nat) (f : α → α) : List α :=
  match l[i]? with
  | some x => l.set i (f x)
  | none => l

/-- Go's `new(http.Request)`: a fresh zero-valued struct. -/
def Heap.newRequest (m : Heap) : Addr × Heap :=
  (m.reqs.length, { m with reqs := m.reqs ++ [default] })

/-- Go's `new(url.URL)`. -/
def Heap.newURL (m : Heap) : Addr × Heap :=
  (m.urls.length, { m with urls := m.urls ++ [default] })

/-- Go's `make(http.Header)`: a fresh empty map. -/
def Heap.makeHeader (m : Heap) : Addr × Heap :=
  (m.hdrs.length, { m with hdrs := m.hdrs ++ [[]] })

/-- Dereference a `*http.Request`; `none` is the nil-pointer panic. -/
def Heap.request (m : Heap) (p : Option Addr) : Option RequestCell :=
  p.bind (fun a => m.reqs[a]?)

/-- Dereference a `*url.URL`; `none` is the nil-pointer panic. -/
def Heap.url (m : Heap) (p : Option Addr) : Option URL :=
  p.bind (fun a => m.urls[a]?)

/-- Read a header map.  A nil map reads as the empty map (ranging over it
visits nothing). -/
def Heap.header (m : Heap) (p : Option Addr) : Header :=
  match p with
  | none => []
  | some a => m.hdrs.getD a []

/-- Write to the request struct at `a`. -/
def Heap.updRequest (m : Heap) (a : Addr) (f : RequestCell → RequestCell) : Heap :=
  { m with reqs := updateAt m.reqs a f }

/-- Write to the URL struct at `a`. -/
def Heap.updURL (m : Heap) (a : Addr) (f : URL → URL) : Heap :=
  { m with urls := updateAt m.urls a f }

/-- Write to the header map at `a`. -/
def Heap.updHeader (m : Heap) (a : Addr) (f : Header → Header) : Heap :=
  { m with hdrs := updateAt m.hdrs a f }

/-- What a callee that is handed the pointer `a` reads: the struct, its URL and
its header map. -/
def Heap.view (m : Heap) (a : Addr) : RequestView :=
  let q := m.reqs.getD a default
  q.retarget ((m.url q.URL).getD default) (m.header q.Header)

/-- Store what a callee left in the request at `a`, in the URL it points to and
in its header map. -/
def Heap.putView (m : Heap) (a : Addr) (v : RequestView) : Heap :=
  let q := m.reqs.getD a default
  let m1 := m.updRequest a (fun c => v.retarget c.URL c.Header)
  let m2 := match q.URL with
    | some u => m1.updURL u (fun _ => v.URL)
    | none => m1
  match q.Header with
  | some h => m2.updHeader h (fun _ => v.Header)
  | none => m2

/-! ## The transport -/

/-- Modelled from the spec: the type `Keys`, declared outside `transport.go`
(the spec's KeyPair: an access identifier and a secret value). -/
structure Keys where
  AccessKey : String
  SecretKey : String
deriving DecidableEq, Repr, Inhabited

/-- Go's `http.Response`, passed through untouched; only a status is kept. -/
structure Response where
  StatusCode : Int
  Status : String
deriving DecidableEq, Repr, Inhabited

/-- The struct `Transport` of `transport.go`.  `σ` is the type of signing
services (`*Service`), `ρ` the type of `http.RoundTripper` values; `none` is
nil. -/
structure Transport (σ ρ : Type) where
  Keys : Option Keys
  Service : Option σ
  Transport : Option ρ

/-- The package variable `DefaultTransport = &Transport{}`. -/
def DefaultTransport {σ ρ : Type} : Transport σ ρ :=
  { Keys := none, Service := none, Transport := none }

/-- The collaborators that `transport.go` uses and does not define.
`Sign s v k` is the request that `s.Sign(r1, k)` leaves behind when the request
it is handed reads as `v`; `roundTrip rt v` is what `rt.RoundTrip(r1)` returns
(a response and an error, each possibly nil) when the request reads as `v`. -/
structure Env (σ ρ : Type) where
  DefaultService : σ
  Sign : σ → RequestView → Keys → RequestView
  httpDefaultTransport : ρ
  roundTrip : ρ → RequestView → Option Response × Option String

/-- A call that `RoundTrip` makes to a collaborator, with the request as the
callee reads it at the time of the call. -/
inductive Event (σ ρ : Type) where
  | sign (service : σ) (request : RequestView) (keys : Keys)
  | roundTrip (rt : ρ) (request : RequestView)

/-- How a call ends: it returns a response and an error, or it panics on a
nil pointer. -/
inductive Result where
  | returned (resp : Option Response) (err : Option String)
  | panicked
deriving DecidableEq, Repr

/-- The memory after a call, the collaborator calls made (oldest first), and
the result. -/
structure Outcome (σ ρ : Type) where
  heap : Heap
  trace : List (Event σ ρ)
  result : Result

/-- The method `(t *Transport) RoundTrip(r *http.Request)` of `transport.go`,
with `now` the reading of `time.Now()` in seconds since the Unix epoch. -/
def RoundTrip {σ ρ : Type} (env : Env σ ρ) (now : Int) (t : Transport σ ρ) (r : Option Addr)
    (m0 : Heap) : Outcome σ ρ :=
  match t.Keys with
  | none => ⟨m0, [], .returned none (some "s3: uninitialized keys")⟩
  | some keys =>
    -- r1 := new(http.Request)
    let (r1, m1) := m0.newRequest
    -- *r1 = *r
    match m1.request r with
    | none => ⟨m1, [], .panicked⟩
    | some q =>
      let m2 := m1.updRequest r1 (fun _ => q)
      -- r1.URL = new(url.URL)
      let (u1, m3) := m2.newURL
      let m4 := m3.updRequest r1 (fun c => { c with URL := some u1 })
      -- *r1.URL = *r.URL
      match (m4.request r).bind (fun c => m4.url c.URL) with
      | none => ⟨m4, [], .panicked⟩
      | some u =>
        let m5 := m4.updURL u1 (fun _ => u)
        -- r1.URL.Scheme = "https"
        let m6 := m5.updURL u1 (fun c => { c with Scheme := "https" })
        -- r1.Header = make(http.Header)
        let (h1, m7) := m6.makeHeader
        let m8 := m7.updRequest r1 (fun c => { c with Header := some h1 })
        -- copyHeader(r1.Header, r.Header)
        let src := match m8.request r with
          | some c => m8.header c.Header
          | none => []
        let m9 := m8.updHeader h1 (fun dst => copyHeader dst src)
        -- if r1.Header.Get("Date") == "" { r1.Header.Set("Date", ...) }
        let m10 :=
          if (m9.header (some h1)).Get "Date" = "" then
            m9.updHeader h1 (fun d => d.Set "Date" (httpTimeFormat now))
          else m9
        -- service := t.Service; if service == nil { service = DefaultService }
        let service := match t.Service with
          | some s => s
          | none => env.DefaultService
        -- service.Sign(r1, *t.Keys)
        let v := m10.view r1
        let m11 := m10.putView r1 (env.Sign service v keys)
        -- rt := t.Transport; if rt == nil { rt = http.DefaultTransport }
        let rt := match t.Transport with
          | some x => x
          | none => env.httpDefaultTransport
        -- return rt.RoundTrip(r1)
        let w := m11.view r1
        let res := env.roundTrip rt w
        ⟨m11, [.sign service v keys, .roundTrip rt w], .returned res.1 res.2⟩

/-! ## Reading an outcome -/

/-- The calls made to a signer: the service, the request as it read when it was
handed over, and the keys. -/
def Outcome.signerCalls {σ ρ : Type} (o : Outcome σ ρ) : List (σ × RequestView × Keys) :=
  o.trace.filterMap (fun e => match e with
    | .sign s v k => some (s, v, k)
    | .roundTrip _ _ => none)

/-- The calls made to a delegate transport: the transport and the request as it
read when it was handed over. -/
def Outcome.delegateCalls {σ ρ : Type} (o : Outcome σ ρ) : List (ρ × RequestView) :=
  o.trace.filterMap (fun e => match e with
    | .sign _ _ _ => none
    | .roundTrip rt v => some (rt, v))

/-- The header maps handed to a signer, one for each signer call. -/
def Outcome.signedHeaders {σ ρ : Type} (o : Outcome σ ρ) : List Header :=
  o.signerCalls.map (fun c => c.2.1.Header)

/-- The header map of the copy at the time `RoundTrip` calls the signer, when
the header map of the original reads as `src`: the entries copied by
`copyHeader` into a fresh map, then the `Date` default. -/
def preparedHeader (now : Int) (src : Header) : Header :=
  let d := copyHeader [] src
  if d.Get "Date" = "" then d.Set "Date" (httpTimeFormat now) else d

/-! ## Concrete collaborators and requests used in examples -/

/-- A signer that appends a marker header naming the service, and a delegate
that answers 200 with the URL it was asked for and its own name. -/
def exEnv : Env Nat Nat :=
  { DefaultService := 0
    Sign := fun s v _ => { v with Header := v.Header.Add "Authorization" (toString s) }
    httpDefaultTransport := 0
    roundTrip := fun rt v =>
      (some ⟨200, v.URL.Scheme ++ "://" ++ v.URL.Host ++ v.URL.Path ++ " via " ++ toString rt⟩, none) }

/-- A signer that changes nothing and a delegate that answers 200. -/
def idEnv : Env Nat Nat :=
  { DefaultService := 0
    Sign := fun _ v _ => v
    httpDefaultTransport := 0
    roundTrip := fun _ _ => (some ⟨200, "200 OK"⟩, none) }

/-- Test keys. -/
def exKeys : Keys := ⟨"AKIDEXAMPLE", "secret"⟩

/-- A transport with keys and nothing else configured. -/
def exTransport : Transport Nat Nat :=
  { Keys := some exKeys, Service := none, Transport := none }

/-- The URL `s3://bucket/key`. -/
def exURL : URL :=
  { (default : URL) with Scheme := "s3", Host := "bucket", Path := "/key" }

/-- A GET request whose URL and header map are at address 0. -/
def exRequest : RequestCell :=
  { (default : RequestCell) with Method := "GET", URL := some 0, Header := some 0, Host := "bucket" }

/-- A heap holding `exRequest` for `s3://bucket/key` with the header map `h`. -/
def exHeap (h : Header) : Heap :=
  { reqs := [exRequest], urls := [exURL], hdrs := [h] }

/-! ## Lemmas: canonical keys -/

theorem isTokenByte_lt {b : Nat} (h : isTokenByte b = true) : b < 127 := by
  simp [isTokenByte] at h
  omega

theorem toNat_ofNat_of_lt {n : Nat} (h : n < 127) : (Char.ofNat n).toNat = n := by
  have hv : n.isValidChar := Or.inl (by omega)
  unfold Char.ofNat
  rw [dif_pos hv]
  rfl

theorem canonByte_idem (u : Bool) (b : Nat) : canonByte u (canonByte u b) = canonByte u b := by
  unfold canonByte
  cases u <;> simp <;> split_ifs <;> omega

theorem isTokenByte_canonByte (u : Bool) {b : Nat} (h : isTokenByte b = true) :
    isTokenByte (canonByte u b) = true := by
  simp [isTokenByte] at h
  unfold canonByte
  cases u <;> simp [isTokenByte] <;> split_ifs <;> omega

theorem canonByte_fold (u : Bool) {a b : Nat} (h : lowerByte a = lowerByte b) :
    canonByte u a = canonByte u b := by
  unfold lowerByte at h
  unfold canonByte
  cases u <;> simp <;> split_ifs at h ⊢ <;> omega

theorem isTokenByte_fold {a b : Nat} (h : lowerByte a = lowerByte b) :
    isTokenByte a = isTokenByte b := by
  unfold lowerByte at h
  rw [Bool.eq_iff_iff]
  simp [isTokenByte]
  split_ifs at h <;> omega

theorem canonBytes_idem (u : Bool) (bs : List Nat) :
    canonBytes u (canonBytes u bs) = canonBytes u bs := by
  induction bs generalizing u with
  | nil => rfl
  | cons b bs ih => simp only [canonBytes, canonByte_idem, ih]

theorem all_token_canonBytes (u : Bool) (bs : List Nat) (h : bs.all isTokenByte = true) :
    (canonBytes u bs).all isTokenByte = true := by
  induction bs generalizing u with
  | nil => rfl
  | cons b bs ih =>
    simp only [List.all_cons, Bool.and_eq_true] at h
    simp only [canonBytes, List.all_cons, Bool.and_eq_true]
    exact ⟨isTokenByte_canonByte u h.1, ih _ h.2⟩

theorem map_toNat_ofNat (bs : List Nat) (h : bs.all isTokenByte = true) :
    (bs.map Char.ofNat).map Char.toNat = bs := by
  induction bs with
  | nil => rfl
  | cons b bs ih =>
    simp only [List.all_cons, Bool.and_eq_true] at h
    simp only [List.map_cons, ih h.2, toNat_ofNat_of_lt (isTokenByte_lt h.1)]

theorem canonical_mk (l : List Nat) (h2 : l.all isTokenByte = true)
    (h4 : canonBytes true l = l) :
    CanonicalMIMEHeaderKey (String.mk (l.map Char.ofNat)) = String.mk (l.map Char.ofNat) := by
  simp only [CanonicalMIMEHeaderKey, String.toList, map_toNat_ofNat _ h2, h2, h4, if_true]

theorem canonical_idem (s : String) :
    CanonicalMIMEHeaderKey (CanonicalMIMEHeaderKey s) = CanonicalMIMEHeaderKey s := by
  by_cases h : (s.toList.map Char.toNat).all isTokenByte = true
  · have h1 : CanonicalMIMEHeaderKey s =
        String.mk ((canonBytes true (s.toList.map Char.toNat)).map Char.ofNat) := by
      simp only [CanonicalMIMEHeaderKey, h, if_true]
    rw [h1]
    exact canonical_mk _ (all_token_canonBytes true _ h) (canonBytes_idem _ _)
  · have h1 : CanonicalMIMEHeaderKey s = s := by
      simp only [CanonicalMIMEHeaderKey, h]
      rfl
    rw [h1, h1]

theorem canonBytes_fold (u : Bool) (as bs : List Nat)
    (h : as.map lowerByte = bs.map lowerByte) : canonBytes u as = canonBytes u bs := by
  induction as generalizing u bs with
  | nil =>
    cases bs with
    | nil => rfl
    | cons b bs => simp at h
  | cons a as ih =>
    cases bs with
    | nil => simp at h
    | cons b bs =>
      simp only [List.map_cons, List.cons.injEq] at h
      simp only [canonBytes, canonByte_fold u h.1, ih _ _ h.2]

theorem all_token_fold (as bs : List Nat) (h : as.map lowerByte = bs.map lowerByte) :
    as.all isTokenByte = bs.all isTokenByte := by
  induction as generalizing bs with
  | nil =>
    cases bs with
    | nil => rfl
    | cons b bs => simp at h
  | cons a as ih =>
    cases bs with
    | nil => simp at h
    | cons b bs =>
      simp only [List.map_cons, List.cons.injEq] at h
      simp only [List.all_cons, isTokenByte_fold h.1, ih _ h.2]

theorem canonical_fold (s1 s2 : String) (ht : isTokenKey s1 = true)
    (h : foldBytes s1 = foldBytes s2) :
    CanonicalMIMEHeaderKey s1 = CanonicalMIMEHeaderKey s2 := by
  have h' : (s1.toList.map Char.toNat).map lowerByte = (s2.toList.map Char.toNat).map lowerByte := by
    simpa [foldBytes, List.map_map, Function.comp] using h
  have ht2 : (s2.toList.map Char.toNat).all isTokenByte = true := by
    rw [← all_token_fold _ _ h']; exact ht
  have ht1 : (s1.toList.map Char.toNat).all isTokenByte = true := ht
  simp only [CanonicalMIMEHeaderKey, ht1, ht2, if_true, canonBytes_fold true _ _ h']

theorem canonical_Date : CanonicalMIMEHeaderKey "Date" = "Date" := by decide

/-! ## Lemmas: header maps -/

theorem Header.entry_store (h : Header) (k k' : String) (vs : List String) :
    (h.store k vs).entry k' = if k = k' then some vs else h.entry k' := by
  induction h with
  | nil => simp [Header.store, Header.entry]
  | cons e rest ih =>
    obtain ⟨a, b⟩ := e
    by_cases hak : a = k
    · subst hak
      by_cases hak' : a = k' <;> simp [Header.store, Header.entry, hak']
    · by_cases hak' : a = k'
      · subst hak'
        have : ¬ k = a := fun h => hak h.symm
        simp [Header.store, Header.entry, hak, this]
      · simp [Header.store, Header.entry, hak, hak', ih]

theorem Header.values_store (h : Header) (k k' : String) (vs : List String) :
    (h.store k vs).values k' = if k = k' then vs else h.values k' := by
  unfold Header.values
  rw [Header.entry_store]
  split <;> rfl

theorem Header.values_addAll (k : String) (vv : List String) (d : Header) (c : String) :
    (vv.foldl (fun d v => d.Add k v) d).values c =
      if CanonicalMIMEHeaderKey k = c then d.values c ++ vv else d.values c := by
  induction vv generalizing d with
  | nil => simp
  | cons v vs ih =>
    rw [List.foldl_cons, ih]
    by_cases hc : CanonicalMIMEHeaderKey k = c
    · simp [hc, Header.Add, Header.values_store]
    · simp [hc, Header.Add, Header.values_store]

theorem copyHeader_values (dst src : Header) (c : String) :
    (copyHeader dst src).values c = dst.values c ++ src.contrib c := by
  induction src generalizing dst with
  | nil => simp [copyHeader, Header.contrib]
  | cons e rest ih =>
    have h1 : copyHeader dst (e :: rest) =
        copyHeader (e.2.foldl (fun d v => d.Add e.1 v) dst) rest := rfl
    rw [h1, ih, Header.values_addAll]
    by_cases hc : CanonicalMIMEHeaderKey e.1 = c
    · simp [hc, Header.contrib, List.filter_cons]
    · simp [hc, Header.contrib, List.filter_cons]

theorem Header.NoEmpty_store (h : Header) (k : String) (vs : List String) (hn : h.NoEmpty)
    (hv : vs ≠ []) : (h.store k vs).NoEmpty := by
  intro k'
  rw [Header.entry_store]
  split
  · intro h1
    exact hv (Option.some.inj h1)
  · exact hn k'

theorem Header.NoEmpty_Add (h : Header) (k v : String) (hn : h.NoEmpty) : (h.Add k v).NoEmpty :=
  Header.NoEmpty_store h _ _ hn (by simp)

theorem Header.NoEmpty_addAll (k : String) (vv : List String) (d : Header) (hn : d.NoEmpty) :
    (vv.foldl (fun d v => d.Add k v) d).NoEmpty := by
  induction vv generalizing d with
  | nil => exact hn
  | cons v vs ih => exact ih _ (Header.NoEmpty_Add d k v hn)

theorem copyHeader_NoEmpty (dst src : Header) (hn : dst.NoEmpty) : (copyHeader dst src).NoEmpty := by
  induction src generalizing dst with
  | nil => exact hn
  | cons e rest ih => exact ih _ (Header.NoEmpty_addAll e.1 e.2 dst hn)

theorem Header.NoEmpty_nil : Header.NoEmpty [] := by
  intro k h
  cases h

theorem Header.entry_of_NoEmpty (h : Header) (hn : h.NoEmpty) (k : String) :
    h.entry k = if h.values k = [] then none else some (h.values k) := by
  unfold Header.values
  cases he : h.entry k with
  | none => simp
  | some vs =>
    have : vs ≠ [] := fun h0 => hn k (by rw [he, h0])
    simp [this]

theorem copyHeader_nil_values (src : Header) (c : String) :
    (copyHeader [] src).values c = src.contrib c := by
  rw [copyHeader_values]
  rfl

theorem copyHeader_nil_entry (src : Header) (c : String) :
    (copyHeader [] src).entry c = if src.contrib c = [] then none else some (src.contrib c) := by
  rw [Header.entry_of_NoEmpty _ (copyHeader_NoEmpty [] src Header.NoEmpty_nil), copyHeader_nil_values]

theorem Header.contrib_eq_nil_of_not_canonical (src : Header) (c : String)
    (hc : CanonicalMIMEHeaderKey c ≠ c) : src.contrib c = [] := by
  unfold Header.contrib
  have : src.filter (fun kv => CanonicalMIMEHeaderKey kv.1 = c) = [] := by
    rw [List.filter_eq_nil_iff]
    intro e _ he
    simp only [decide_eq_true_eq] at he
    apply hc
    rw [← he, canonical_idem]
  rw [this]
  rfl

theorem Header.filter_key_of_mem (src : Header) (hw : src.WF) (k : String) (vv : List String)
    (hm : (k, vv) ∈ src) : src.filter (fun kv => kv.1 = k) = [(k, vv)] := by
  induction src with
  | nil => cases hm
  | cons e rest ih =>
    have hw' : (e.1 ∉ rest.map Prod.fst) ∧ (rest.map Prod.fst).Nodup := by
      simpa [Header.WF] using hw
    rcases List.mem_cons.mp hm with h1 | h1
    · subst h1
      have : rest.filter (fun kv => kv.1 = k) = [] := by
        rw [List.filter_eq_nil_iff]
        intro e he h2
        simp only [decide_eq_true_eq] at h2
        exact hw'.1 (by rw [← h2]; exact List.mem_map.mpr ⟨e, he, rfl⟩)
      simp [List.filter_cons, this]
    · have hne : e.1 ≠ k := by
        intro h2
        exact hw'.1 (by rw [h2]; exact List.mem_map.mpr ⟨(k, vv), h1, rfl⟩)
      simp [List.filter_cons, hne, ih hw'.2 h1]

theorem Header.entry_of_mem (src : Header) (hw : src.WF) (k : String) (vv : List String)
    (hm : (k, vv) ∈ src) : src.entry k = some vv := by
  induction src with
  | nil => cases hm
  | cons e rest ih =>
    have hw' : (e.1 ∉ rest.map Prod.fst) ∧ (rest.map Prod.fst).Nodup := by
      simpa [Header.WF] using hw
    obtain ⟨a, b⟩ := e
    rcases List.mem_cons.mp hm with h1 | h1
    · cases h1
      simp [Header.entry]
    · have hne : a ≠ k := by
        intro h2
        exact hw'.1 (by rw [h2]; exact List.mem_map.mpr ⟨(k, vv), h1, rfl⟩)
      simp [Header.entry, hne, ih hw'.2 h1]

theorem Header.mem_of_entry (src : Header) (k : String) (vv : List String)
    (he : src.entry k = some vv) : (k, vv) ∈ src := by
  induction src with
  | nil => cases he
  | cons e rest ih =>
    obtain ⟨a, b⟩ := e
    by_cases hak : a = k
    · simp [Header.entry, hak] at he
      simp [hak, he]
    · simp [Header.entry, hak] at he
      exact List.mem_cons_of_mem _ (ih he)

theorem Header.contrib_of_unique (src : Header) (hw : src.WF) (k : String) (vv : List String)
    (hm : (k, vv) ∈ src)
    (hu : ∀ k' vv', (k', vv') ∈ src → CanonicalMIMEHeaderKey k' = CanonicalMIMEHeaderKey k → k' = k) :
    src.contrib (CanonicalMIMEHeaderKey k) = vv := by
  unfold Header.contrib
  have h1 : src.filter (fun kv => CanonicalMIMEHeaderKey kv.1 = CanonicalMIMEHeaderKey k) =
      src.filter (fun kv => kv.1 = k) := by
    apply List.filter_congr
    intro e he
    simp only [decide_eq_decide]
    constructor
    · intro h2
      exact hu e.1 e.2 he h2
    · intro h2
      rw [h2]
  rw [h1, Header.filter_key_of_mem src hw k vv hm]
  simp

theorem Header.sublist_contrib (src : Header) (k : String) (vv : List String)
    (hm : (k, vv) ∈ src) : vv.Sublist (src.contrib (CanonicalMIMEHeaderKey k)) := by
  induction src with
  | nil => cases hm
  | cons e rest ih =>
    unfold Header.contrib
    rcases List.mem_cons.mp hm with h1 | h1
    · subst h1
      simp [List.filter_cons]
    · by_cases hc : CanonicalMIMEHeaderKey e.1 = CanonicalMIMEHeaderKey k
      · simp only [List.filter_cons, hc, decide_True, if_true, List.flatMap_cons]
        exact (ih h1).trans (List.sublist_append_right _ _)
      · simp only [List.filter_cons, hc, decide_False]
        exact ih h1

theorem Header.contrib_eq_values_of_canonical (src : Header) (hw : src.WF)
    (hc : ∀ k vv, (k, vv) ∈ src → CanonicalMIMEHeaderKey k = k) (c : String) :
    src.contrib c = src.values c := by
  cases he : src.entry c with
  | some vv =>
    have hm := Header.mem_of_entry src c vv he
    have h1 := Header.contrib_of_unique src hw c vv hm (by
      intro k' vv' hm' h2
      rw [hc k' vv' hm', hc c vv hm] at h2
      exact h2)
    rw [hc c vv hm] at h1
    rw [h1, Header.values, he]
    rfl
  | none =>
    have : src.filter (fun kv => CanonicalMIMEHeaderKey kv.1 = c) = [] := by
      rw [List.filter_eq_nil_iff]
      intro e hm h2
      simp only [decide_eq_true_eq] at h2
      rw [hc e.1 e.2 hm] at h2
      have h3 := Header.entry_of_mem src hw e.1 e.2 hm
      rw [h2, he] at h3
      cases h3
    rw [Header.contrib, this, Header.values, he]
    rfl

theorem Header.values_Set (h : Header) (key v c : String) :
    (h.Set key v).values c = if CanonicalMIMEHeaderKey key = c then [v] else h.values c := by
  unfold Header.Set
  rw [Header.values_store]

theorem Header.entry_Set (h : Header) (key v c : String) :
    (h.Set key v).entry c = if CanonicalMIMEHeaderKey key = c then some [v] else h.entry c := by
  unfold Header.Set
  rw [Header.entry_store]

theorem Header.Get_Set (h : Header) (key v : String) : (h.Set key v).Get key = v := by
  unfold Header.Get
  rw [Header.values_Set]
  simp

theorem httpTimeFormat_ne_empty (now : Int) : httpTimeFormat now ≠ "" := by
  unfold httpTimeFormat
  intro h
  have := congrArg String.length h
  simp only [String.length_append] at this
  have h2 : " GMT".length = 4 := by decide
  have h3 : "".length = 0 := by decide
  omega

/-! ## Lemmas: the calendar and the rendering of the clock -/

theorem daysBeforeMonth_eq (y : Int) (m : Nat) (h1 : 1 ≤ m) (h2 : m ≤ 12) :
    daysBeforeMonth y m =
      (if m = 1 then 0 else if m = 2 then 31 else
        (if isLeapYear y then 1 else 0) +
          (if m = 3 then 59 else if m = 4 then 90 else if m = 5 then 120 else
            if m = 6 then 151 else if m = 7 then 181 else if m = 8 then 212 else
            if m = 9 then 243 else if m = 10 then 273 else if m = 11 then 304 else 334)) := by
  interval_cases m <;> cases hl : isLeapYear y <;>
    simp [daysBeforeMonth, daysInMonth, List.range_succ, hl]

set_option maxHeartbeats 1000000 in
theorem doe_lin (doe g e f N a b c D : Nat) (h : doe < 146097)
    (hg1 : 1460 * g ≤ doe) (hg2 : doe < 1460 * g + 1460)
    (he1 : 36524 * e ≤ doe) (he2 : doe < 36524 * e + 36524)
    (hf1 : 146096 * f ≤ doe) (hf2 : doe < 146096 * f + 146096)
    (hN : N + g + f = doe + e)
    (ha1 : 365 * a ≤ N) (ha2 : N < 365 * a + 365)
    (hb1 : 4 * b ≤ a) (hb2 : a < 4 * b + 4)
    (hc1 : 100 * c ≤ a) (hc2 : a < 100 * c + 100)
    (hD : D + c = 365 * a + b) :
    a < 400 ∧ D ≤ doe ∧ doe < D + 366 ∧
      (doe = D + 365 → (a + 1) % 4 = 0 ∧ ((a + 1) % 100 ≠ 0 ∨ a + 1 = 400)) := by
  have hj : a + 1 = 4 * g ∨ a = 4 * g ∨ a = 4 * g + 1 ∨ a = 4 * g + 2 ∨ a = 4 * g + 3 ∨
      a = 4 * g + 4 := by omega
  have hef : (e = 0 ∧ f = 0) ∨ (e = 1 ∧ f = 0) ∨ (e = 2 ∧ f = 0) ∨ (e = 3 ∧ f = 0) ∨
      (e = 4 ∧ f = 1) := by omega
  have hc : c = 0 ∨ c = 1 ∨ c = 2 ∨ c = 3 ∨ c = 4 := by omega
  rcases hef with ⟨rfl, rfl⟩ | ⟨rfl, rfl⟩ | ⟨rfl, rfl⟩ | ⟨rfl, rfl⟩ | ⟨rfl, rfl⟩ <;>
    rcases hj with hj | hj | hj | hj | hj | hj <;>
    rcases hc with rfl | rfl | rfl | rfl | rfl <;> omega

/-- The year of the era and the day of the year that `civilFromDays` computes
from the day of the era. -/
theorem doe_year (doe : Nat) (h : doe < 146097) :
    ∃ a D : Nat, a = (doe - doe / 1460 + doe / 36524 - doe / 146096) / 365 ∧
      D = 365 * a + a / 4 - a / 100 ∧
      a < 400 ∧ D ≤ doe ∧ doe < D + 366 ∧ D + a / 100 = 365 * a + a / 4 ∧
      (doe = D + 365 → (a + 1) % 4 = 0 ∧ ((a + 1) % 100 ≠ 0 ∨ a + 1 = 400)) := by
  refine ⟨_, _, rfl, rfl, ?_⟩
  have hl := doe_lin doe (doe / 1460) (doe / 36524) (doe / 146096)
    (doe - doe / 1460 + doe / 36524 - doe / 146096)
    ((doe - doe / 1460 + doe / 36524 - doe / 146096) / 365)
    ((doe - doe / 1460 + doe / 36524 - doe / 146096) / 365 / 4)
    ((doe - doe / 1460 + doe / 36524 - doe / 146096) / 365 / 100)
    (365 * ((doe - doe / 1460 + doe / 36524 - doe / 146096) / 365) +
      (doe - doe / 1460 + doe / 36524 - doe / 146096) / 365 / 4 -
      (doe - doe / 1460 + doe / 36524 - doe / 146096) / 365 / 100)
    h (by omega) (by omega) (by omega) (by omega) (by omega) (by omega) (by omega) (by omega)
    (by omega) (by omega) (by omega) (by omega) (by omega) (by omega)
  refine ⟨hl.1, hl.2.1, hl.2.2.1, by omega, hl.2.2.2⟩

theorem isLeapYear_iff (y : Int) :
    isLeapYear y = true ↔ (y % 4 = 0 ∧ (y % 100 ≠ 0 ∨ y % 400 = 0)) := by
  simp [isLeapYear]

set_option maxHeartbeats 1000000 in
/-- Days since the epoch of the date that `civilFromDays` computes, for a month
from March on (the year of the date is the year of the era). -/
theorem days_march_on (era : Int) (a D doy : Nat) (y : Int) (l : Nat) (ha : a < 400)
    (hD : D + a / 100 = 365 * a + a / 4) (hy : y = (a : Int) + era * 400)
    (hl : (l = 1 ∧ y % 4 = 0 ∧ (y % 100 ≠ 0 ∨ y % 400 = 0)) ∨
      (l = 0 ∧ ¬ (y % 4 = 0 ∧ (y % 100 ≠ 0 ∨ y % 400 = 0)))) :
    daysBeforeYear y + ((l + 59 + doy : Nat) : Int) =
      era * 146097 + ((D + doy : Nat) : Int) - 719468 := by
  unfold daysBeforeYear leapYearsBefore
  subst hy
  omega

set_option maxHeartbeats 1000000 in
/-- Days since the epoch of the date that `civilFromDays` computes, for January
and February (the year of the date is the year after the year of the era). -/
theorem days_jan_feb (era : Int) (a D doy : Nat) (y : Int) (ha : a < 400)
    (hD : D + a / 100 = 365 * a + a / 4) (hy : y = (a : Int) + era * 400 + 1)
    (h1 : 306 ≤ doy) :
    daysBeforeYear y + ((doy - 306 : Nat) : Int) =
      era * 146097 + ((D + doy : Nat) : Int) - 719468 := by
  unfold daysBeforeYear leapYearsBefore
  subst hy
  omega

theorem leap_of_last_day (era : Int) (a : Nat) (y : Int) (hy : y = (a : Int) + era * 400 + 1)
    (h : (a + 1) % 4 = 0 ∧ ((a + 1) % 100 ≠ 0 ∨ a + 1 = 400)) : isLeapYear y = true := by
  rw [isLeapYear_iff]
  subst hy
  omega

theorem leap_cases (y : Int) :
    (isLeapYear y = true ∧ y % 4 = 0 ∧ (y % 100 ≠ 0 ∨ y % 400 = 0)) ∨
    (isLeapYear y = false ∧ ¬ (y % 4 = 0 ∧ (y % 100 ≠ 0 ∨ y % 400 = 0))) := by
  cases h : isLeapYear y with
  | true => exact Or.inl ⟨rfl, (isLeapYear_iff y).mp h⟩
  | false =>
    refine Or.inr ⟨rfl, fun h2 => ?_⟩
    rw [(isLeapYear_iff y).mpr h2] at h
    cases h

set_option maxHeartbeats 2000000 in
/-- The date that `civilFromDays` computes is a date of the calendar, and it is
the date of the day it was computed from. -/
theorem civilFromDays_spec (days : Int) :
    ∃ (y : Int) (m d : Nat), civilFromDays days = (y, m, d) ∧ 1 ≤ m ∧ m ≤ 12 ∧ 1 ≤ d ∧
      d ≤ daysInMonth y m ∧ daysOfCivil y m d = days := by
  have hz : Int.fdiv (days + 719468) 146097 = (days + 719468) / 146097 :=
    Int.fdiv_eq_ediv _ (by decide)
  unfold civilFromDays
  simp only [hz]
  generalize hera : (days + 719468) / 146097 = era
  generalize hdoe : (days + 719468 - era * 146097).toNat = doe
  have hdoe1 : (doe : Int) = days + 719468 - era * 146097 := by omega
  have hdoe2 : doe < 146097 := by omega
  obtain ⟨a, D, ha, hD, ha4, hD1, hD2, hD3, hD4⟩ := doe_year doe hdoe2
  rw [← ha, ← hD]
  generalize hdoy : doe - D = doy
  have hdoy1 : D + doy = doe := by omega
  have hdoy2 : doy < 366 := by omega
  have hmp1 : (5 * doy + 2) / 153 < 12 := by omega
  generalize hmp : (5 * doy + 2) / 153 = mp at hmp1
  refine ⟨_, _, _, rfl, ?_⟩
  have hlast : doy = 365 → (a + 1) % 4 = 0 ∧ ((a + 1) % 100 ≠ 0 ∨ a + 1 = 400) := by
    intro h
    exact hD4 (by omega)
  clear ha hD hD4 hD1 hD2 hdoe hera hz
  interval_cases mp
  all_goals simp only [Nat.reduceMul, Nat.reduceAdd, Nat.reduceDiv, Nat.reduceLT, Nat.reduceSub,
    if_true, if_false, Nat.reduceLeDiff, Int.add_zero, Nat.zero_add, Nat.sub_zero]
  · refine ⟨trivial, trivial, trivial, ?_, ?_⟩
    · simp only [daysInMonth]
      norm_num
      omega
    · unfold daysOfCivil
      rw [daysBeforeMonth_eq _ _ (by decide) (by decide)]
      rcases leap_cases ((a : Int) + era * 400) with ⟨hl, hp⟩ | ⟨hl, hp⟩
      · have h1 := days_march_on era a D doy _ 1 ha4 hD3 rfl (Or.inl ⟨rfl, hp⟩)
        simp only [hl]
        norm_num
        omega
      · have h1 := days_march_on era a D doy _ 0 ha4 hD3 rfl (Or.inr ⟨rfl, hp⟩)
        simp only [hl]
        norm_num
        omega
  · refine ⟨trivial, trivial, trivial, ?_, ?_⟩
    · simp only [daysInMonth]
      norm_num
      omega
    · unfold daysOfCivil
      rw [daysBeforeMonth_eq _ _ (by decide) (by decide)]
      rcases leap_cases ((a : Int) + era * 400) with ⟨hl, hp⟩ | ⟨hl, hp⟩
      · have h1 := days_march_on era a D doy _ 1 ha4 hD3 rfl (Or.inl ⟨rfl, hp⟩)
        simp only [hl]
        norm_num
        omega
      · have h1 := days_march_on era a D doy _ 0 ha4 hD3 rfl (Or.inr ⟨rfl, hp⟩)
        simp only [hl]
        norm_num
        omega
  · refine ⟨trivial, trivial, trivial, ?_, ?_⟩
    · simp only [daysInMonth]
      norm_num
      omega
    · unfold daysOfCivil
      rw [daysBeforeMonth_eq _ _ (by decide) (by decide)]
      rcases leap_cases ((a : Int) + era * 400) with ⟨hl, hp⟩ | ⟨hl, hp⟩
      · have h1 := days_march_on era a D doy _ 1 ha4 hD3 rfl (Or.inl ⟨rfl, hp⟩)
        simp only [hl]
        norm_num
        omega
      · have h1 := days_march_on era a D doy _ 0 ha4 hD3 rfl (Or.inr ⟨rfl, hp⟩)
        simp only [hl]
        norm_num
        omega
  · refine ⟨trivial, trivial, trivial, ?_, ?_⟩
    · simp only [daysInMonth]
      norm_num
      omega
    · unfold daysOfCivil
      rw [daysBeforeMonth_eq _ _ (by decide) (by decide)]
      rcases leap_cases ((a : Int) + era * 400) with ⟨hl, hp⟩ | ⟨hl, hp⟩
      · have h1 := days_march_on era a D doy _ 1 ha4 hD3 rfl (Or.inl ⟨rfl, hp⟩)
        simp only [hl]
        norm_num
        omega
      · have h1 := days_march_on era a D doy _ 0 ha4 hD3 rfl (Or.inr ⟨rfl, hp⟩)
        simp only [hl]
        norm_num
        omega
  · refine ⟨trivial, trivial, trivial, ?_, ?_⟩
    · simp only [daysInMonth]
      norm_num
      omega
    · unfold daysOfCivil
      rw [daysBeforeMonth_eq _ _ (by decide) (by decide)]
      rcases leap_cases ((a : Int) + era * 400) with ⟨hl, hp⟩ | ⟨hl, hp⟩
      · have h1 := days_march_on era a D doy _ 1 ha4 hD3 rfl (Or.inl ⟨rfl, hp⟩)
        simp only [hl]
        norm_num
        omega
      · have h1 := days_march_on era a D doy _ 0 ha4 hD3 rfl (Or.inr ⟨rfl, hp⟩)
        simp only [hl]
        norm_num
        omega
  · refine ⟨trivial, trivial, trivial, ?_, ?_⟩
    · simp only [daysInMonth]
      norm_num
      omega
    · unfold daysOfCivil
      rw [daysBeforeMonth_eq _ _ (by decide) (by decide)]
      rcases leap_cases ((a : Int) + era * 400) with ⟨hl, hp⟩ | ⟨hl, hp⟩
      · have h1 := days_march_on era a D doy _ 1 ha4 hD3 rfl (Or.inl ⟨rfl, hp⟩)
        simp only [hl]
        norm_num
        omega
      · have h1 := days_march_on era a D doy _ 0 ha4 hD3 rfl (Or.inr ⟨rfl, hp⟩)
        simp only [hl]
        norm_num
        omega
  · refine ⟨trivial, trivial, trivial, ?_, ?_⟩
    · simp only [daysInMonth]
      norm_num
      omega
    · unfold daysOfCivil
      rw [daysBeforeMonth_eq _ _ (by decide) (by decide)]
      rcases leap_cases ((a : Int) + era * 400) with ⟨hl, hp⟩ | ⟨hl, hp⟩
      · have h1 := days_march_on era a D doy _ 1 ha4 hD3 rfl (Or.inl ⟨rfl, hp⟩)
        simp only [hl]
        norm_num
        omega
      · have h1 := days_march_on era a D doy _ 0 ha4 hD3 rfl (Or.inr ⟨rfl, hp⟩)
        simp only [hl]
        norm_num
        omega
  · refine ⟨trivial, trivial, trivial, ?_, ?_⟩
    · simp only [daysInMonth]
      norm_num
      omega
    · unfold daysOfCivil
      rw [daysBeforeMonth_eq _ _ (by decide) (by decide)]
      rcases leap_cases ((a : Int) + era * 400) with ⟨hl, hp⟩ | ⟨hl, hp⟩
      · have h1 := days_march_on era a D doy _ 1 ha4 hD3 rfl (Or.inl ⟨rfl, hp⟩)
        simp only [hl]
        norm_num
        omega
      · have h1 := days_march_on era a D doy _ 0 ha4 hD3 rfl (Or.inr ⟨rfl, hp⟩)
        simp only [hl]
        norm_num
        omega
  · refine ⟨trivial, trivial, trivial, ?_, ?_⟩
    · simp only [daysInMonth]
      norm_num
      omega
    · unfold daysOfCivil
      rw [daysBeforeMonth_eq _ _ (by decide) (by decide)]
      rcases leap_cases ((a : Int) + era * 400) with ⟨hl, hp⟩ | ⟨hl, hp⟩
      · have h1 := days_march_on era a D doy _ 1 ha4 hD3 rfl (Or.inl ⟨rfl, hp⟩)
        simp only [hl]
        norm_num
        omega
      · have h1 := days_march_on era a D doy _ 0 ha4 hD3 rfl (Or.inr ⟨rfl, hp⟩)
        simp only [hl]
        norm_num
        omega
  · refine ⟨trivial, trivial, trivial, ?_, ?_⟩
    · simp only [daysInMonth]
      norm_num
      omega
    · unfold daysOfCivil
      rw [daysBeforeMonth_eq _ _ (by decide) (by decide)]
      rcases leap_cases ((a : Int) + era * 400) with ⟨hl, hp⟩ | ⟨hl, hp⟩
      · have h1 := days_march_on era a D doy _ 1 ha4 hD3 rfl (Or.inl ⟨rfl, hp⟩)
        simp only [hl]
        norm_num
        omega
      · have h1 := days_march_on era a D doy _ 0 ha4 hD3 rfl (Or.inr ⟨rfl, hp⟩)
        simp only [hl]
        norm_num
        omega
  · refine ⟨trivial, trivial, trivial, ?_, ?_⟩
    · simp only [daysInMonth]
      norm_num
      omega
    · have h1 := days_jan_feb era a D doy _ ha4 hD3 rfl (by omega)
      unfold daysOfCivil
      rw [daysBeforeMonth_eq _ _ (by decide) (by decide)]
      norm_num
      omega
  · refine ⟨trivial, trivial, trivial, ?_, ?_⟩
    · simp only [daysInMonth]
      norm_num
      cases hl : isLeapYear ((a : Int) + era * 400 + 1) with
      | true =>
        norm_num
        omega
      | false =>
        have h365 : doy ≠ 365 := by
          intro h
          rw [leap_of_last_day era a _ rfl (hlast h)] at hl
          cases hl
        norm_num
        omega
    · have h1 := days_jan_feb era a D doy _ ha4 hD3 rfl (by omega)
      unfold daysOfCivil
      rw [daysBeforeMonth_eq _ _ (by decide) (by decide)]
      norm_num
      omega


theorem digitChar_eq (k : Nat) (h : k < 10) : Nat.digitChar k = digitOf k := by
  interval_cases k <;> rfl

theorem toDigitsCore_step (f n : Nat) (ds : List Char) (hf : 0 < f) :
    Nat.toDigitsCore 10 f n ds =
      if n / 10 = 0 then digitOf n :: ds
      else Nat.toDigitsCore 10 (f - 1) (n / 10) (digitOf n :: ds) := by
  cases f with
  | zero => cases hf
  | succ f =>
    have h1 : Nat.digitChar (n % 10) = digitOf n := by
      rw [digitChar_eq _ (Nat.mod_lt _ (by decide))]
      simp [digitOf]
    simp only [Nat.toDigitsCore, h1, Nat.add_sub_cancel]

theorem toDigitsCore_length_pos (f n : Nat) (ds : List Char) (hf : 0 < f) :
    ds.length + 1 ≤ (Nat.toDigitsCore 10 f n ds).length := by
  induction f generalizing n ds with
  | zero => cases hf
  | succ f ih =>
    rw [toDigitsCore_step _ _ _ hf]
    split
    · simp
    · cases f with
      | zero => simp [Nat.toDigitsCore]
      | succ f =>
        have := ih (n / 10) (digitOf n :: ds) (Nat.succ_pos f)
        simp only [Nat.add_sub_cancel, List.length_cons] at this ⊢
        omega

theorem toDigits_small (n : Nat) (h : n ≤ 9999) :
    List.replicate (4 - (Nat.toDigits 10 n).length) (Char.ofNat 48) ++ Nat.toDigits 10 n =
      [digitOf (n / 1000), digitOf (n / 100), digitOf (n / 10), digitOf n] := by
  have h0 : ∀ k, k = 0 → digitOf k = Char.ofNat 48 := by
    intro k hk
    subst hk
    rfl
  have e2 : n / 10 / 10 = n / 100 := by omega
  have e3 : n / 10 / 10 / 10 = n / 1000 := by omega
  show List.replicate (4 - (Nat.toDigitsCore 10 (n + 1) n []).length) (Char.ofNat 48) ++
    Nat.toDigitsCore 10 (n + 1) n [] = _
  rw [toDigitsCore_step _ _ _ (show 0 < n + 1 by omega)]
  by_cases h1 : n / 10 = 0
  · rw [if_pos h1, h0 (n / 1000) (by omega), h0 (n / 100) (by omega), h0 (n / 10) h1]
    rfl
  · rw [if_neg h1, toDigitsCore_step _ _ _ (by omega)]
    by_cases h2 : n / 10 / 10 = 0
    · rw [if_pos h2, h0 (n / 1000) (by omega), h0 (n / 100) (by omega)]
      rfl
    · rw [if_neg h2, toDigitsCore_step _ _ _ (by omega)]
      by_cases h3 : n / 10 / 10 / 10 = 0
      · rw [if_pos h3, h0 (n / 1000) (by omega), e2]
        rfl
      · rw [if_neg h3, toDigitsCore_step _ _ _ (by omega), if_pos (by omega), e3, e2]
        rfl

theorem toDigits_large (n : Nat) (h : 10000 ≤ n) : 4 - (Nat.toDigits 10 n).length = 0 := by
  show 4 - (Nat.toDigitsCore 10 (n + 1) n []).length = 0
  rw [toDigitsCore_step _ _ _ (show 0 < n + 1 by omega), if_neg (by omega),
    toDigitsCore_step _ _ _ (by omega), if_neg (by omega),
    toDigitsCore_step _ _ _ (by omega), if_neg (by omega),
    toDigitsCore_step _ _ _ (by omega), if_neg (by omega)]
  have := toDigitsCore_length_pos (n + 1 - 1 - 1 - 1 - 1) (n / 10 / 10 / 10 / 10)
    [digitOf (n / 10 / 10 / 10), digitOf (n / 10 / 10), digitOf (n / 10), digitOf n] (by omega)
  simp only [List.length_cons, List.length_nil] at this
  omega

theorem string_mk_append (a b : List Char) : String.mk a ++ String.mk b = String.mk (a ++ b) :=
  rfl

theorem appendInt_year (y : Int) : appendInt y 4 = yearText y := by
  unfold appendInt yearText
  simp only
  congr 1
  by_cases h : y.natAbs ≤ 9999
  · rw [if_pos h, toDigits_small _ h]
    rfl
  · rw [if_neg h, toDigits_large _ (by omega)]
    rfl

theorem appendInt_two (n : Nat) (h : n < 100) : appendInt (n : Int) 2 = twoDigits n := by
  unfold appendInt twoDigits
  have h1 : ¬ ((n : Int) < 0) := by omega
  have h0 : ∀ k, k = 0 → digitOf k = Char.ofNat 48 := by
    intro k hk
    subst hk
    rfl
  simp only [h1, if_false, Int.natAbs_ofNat]
  show "" ++ String.mk (List.replicate (2 - (Nat.toDigitsCore 10 (n + 1) n []).length)
    (Char.ofNat 48) ++ Nat.toDigitsCore 10 (n + 1) n []) = _
  rw [toDigitsCore_step _ _ _ (show 0 < n + 1 by omega)]
  by_cases h2 : n / 10 = 0
  · rw [if_pos h2, h0 (n / 10) h2]
    rfl
  · rw [if_neg h2, toDigitsCore_step _ _ _ (by omega), if_pos (by omega)]
    rfl

theorem shortDayNames_eq (wd : Nat) (h : wd < 7) : shortDayNames.getD wd "" = dayName wd := by
  interval_cases wd <;> rfl

theorem shortMonthNames_eq (m : Nat) (h1 : 1 ≤ m) (h2 : m ≤ 12) :
    shortMonthNames.getD (m - 1) "" = monthName m := by
  interval_cases m <;> rfl

/-- The rendering of the program is the HTTP date of the date and time of day
in UTC that the clock reading denotes. -/
theorem httpTimeFormat_spec (now : Int) :
    ∃ (y : Int) (m d hh mm ss : Nat), 1 ≤ m ∧ m ≤ 12 ∧ 1 ≤ d ∧ d ≤ daysInMonth y m ∧
      hh < 24 ∧ mm < 60 ∧ ss < 60 ∧ unixOfUTC y m d hh mm ss = now ∧
      httpTimeFormat now = httpDate (weekdayOf (daysOfCivil y m d)) d m y hh mm ss := by
  have hz : Int.fdiv now 86400 = now / 86400 := Int.fdiv_eq_ediv _ (by decide)
  obtain ⟨y, m, d, hc, hm1, hm2, hd1, hd2, hdays⟩ := civilFromDays_spec (now / 86400)
  have hsecs : ((now - now / 86400 * 86400).toNat : Int) = now - now / 86400 * 86400 := by omega
  have hlt : (now - now / 86400 * 86400).toNat < 86400 := by omega
  refine ⟨y, m, d, (now - now / 86400 * 86400).toNat / 3600,
    (now - now / 86400 * 86400).toNat / 60 % 60, (now - now / 86400 * 86400).toNat % 60,
    hm1, hm2, hd1, hd2, by omega, by omega, by omega, ?_, ?_⟩
  · unfold unixOfUTC
    rw [hdays]
    omega
  · have hd3 : d < 100 := by
      have : daysInMonth y m ≤ 31 := by
        unfold daysInMonth
        split_ifs <;> omega
      omega
    have hw : (Int.fmod (now / 86400 + 4) 7).toNat = weekdayOf (daysOfCivil y m d) := by
      rw [hdays, Int.fmod_eq_emod _ (by decide)]
      rfl
    have hw7 : weekdayOf (daysOfCivil y m d) < 7 := by
      unfold weekdayOf
      omega
    have e1 : ((now - now / 86400 * 86400).toNat : Int) / 3600 =
        (((now - now / 86400 * 86400).toNat / 3600 : Nat) : Int) := by omega
    have e2 : ((now - now / 86400 * 86400).toNat : Int) / 60 % 60 =
        (((now - now / 86400 * 86400).toNat / 60 % 60 : Nat) : Int) := by omega
    have e3 : ((now - now / 86400 * 86400).toNat : Int) % 60 =
        (((now - now / 86400 * 86400).toNat % 60 : Nat) : Int) := by omega
    unfold httpTimeFormat httpDate
    simp only [hz, hc, hw]
    rw [e1, e2, e3, shortDayNames_eq _ hw7, shortMonthNames_eq _ hm1 hm2, appendInt_year,
      appendInt_two d hd3, appendInt_two _ (by omega), appendInt_two _ (by omega),
      appendInt_two _ (by omega)]


/-! ## Lemmas: the heap and the shape of a call -/

theorem updateAt_append_last {α : Type} (l : List α) (x : α) (f : α → α) :
    updateAt (l ++ [x]) l.length f = l ++ [f x] := by
  simp [updateAt]

theorem getElem?_append_one_of_some {α : Type} (l : List α) (x y : α) (i : Nat)
    (h : l[i]? = some y) : (l ++ [x])[i]? = some y := by
  have hi : i < l.length := by
    rcases Nat.lt_or_ge i l.length with h1 | h1
    · exact h1
    · rw [List.getElem?_eq_none h1] at h; cases h
  rw [List.getElem?_append_left hi, h]

theorem getD_append_last {α : Type} (l : List α) (x d : α) :
    (l ++ [x]).getD l.length d = x := by
  simp [List.getD]

theorem header_read_fresh (m : Heap) (p : Option Addr) :
    (match p with
      | none => ([] : Header)
      | some a => (m.hdrs ++ [[]])[a]?.getD []) = m.header p := by
  cases p with
  | none => rfl
  | some b =>
    simp only [Heap.header, List.getD_eq_getElem?_getD]
    rcases Nat.lt_or_ge b m.hdrs.length with h1 | h1
    · rw [List.getElem?_append_left h1]
    · rw [List.getElem?_eq_none h1]
      rcases Nat.eq_or_lt_of_le h1 with h2 | h2
      · subst h2; simp
      · rw [List.getElem?_eq_none (by simp; omega)]

theorem lt_length_of_getElem? {α : Type} (l : List α) (i : Nat) (x : α) (h : l[i]? = some x) :
    i < l.length := by
  rcases Nat.lt_or_ge i l.length with h1 | h1
  · exact h1
  · rw [List.getElem?_eq_none h1] at h; cases h

/-- The shape of a call that gets past both dereferences; `u` is what `*r.URL`
reads after the fresh URL has been allocated. -/
theorem RoundTrip_shape {σ ρ : Type} (env : Env σ ρ) (now : Int) (t : Transport σ ρ) (a : Addr)
    (m : Heap) (keys : Keys) (q : RequestCell) (ua : Addr) (u : URL)
    (hk : t.Keys = some keys) (hr : m.reqs[a]? = some q) (hq : q.URL = some ua)
    (hu : (m.urls ++ [default])[ua]? = some u) :
    RoundTrip env now t (some a) m =
      let v : RequestView := q.retarget { u with Scheme := "https" } (preparedHeader now (m.header q.Header))
      let s := t.Service.getD env.DefaultService
      let w := env.Sign s v keys
      let rt := t.Transport.getD env.httpDefaultTransport
      { heap := { reqs := m.reqs ++ [w.retarget (some m.urls.length) (some m.hdrs.length)],
                  urls := m.urls ++ [w.URL],
                  hdrs := m.hdrs ++ [w.Header] },
        trace := [.sign s v keys, .roundTrip rt w],
        result := .returned (env.roundTrip rt w).1 (env.roundTrip rt w).2 } := by
  have ha : a < m.reqs.length := lt_length_of_getElem? _ _ _ hr
  have hS : (match t.Service with
      | some s => s
      | none => env.DefaultService) = t.Service.getD env.DefaultService := by
    cases t.Service <;> rfl
  have hT : (match t.Transport with
      | some x => x
      | none => env.httpDefaultTransport) = t.Transport.getD env.httpDefaultTransport := by
    cases t.Transport <;> rfl
  generalize hsrc0 : m.header q.Header = src
  simp only [RoundTrip, hk, Heap.newRequest, Heap.request, Option.bind, Heap.updRequest,
    updateAt_append_last, Heap.newURL, Heap.url, Heap.updURL, Heap.makeHeader, Heap.updHeader,
    Heap.header, Heap.view, Heap.putView, getD_append_last]
  simp only [List.getElem?_append_left ha, hr, hq, hu,
    updateAt_append_last, getD_append_last, List.getD_eq_getElem?_getD, header_read_fresh, hsrc0]
  simp only [hS, hT]
  by_cases hd : (copyHeader [] src).Get "Date" = ""
  · simp [hd, preparedHeader, updateAt_append_last, Request.retarget]
  · simp [hd, preparedHeader, updateAt_append_last, Request.retarget]

theorem RoundTrip_eq {σ ρ : Type} (env : Env σ ρ) (now : Int) (t : Transport σ ρ) (a : Addr)
    (m : Heap) (keys : Keys) (q : RequestCell) (ua : Addr) (u : URL)
    (hk : t.Keys = some keys) (hr : m.reqs[a]? = some q) (hq : q.URL = some ua)
    (hu : m.urls[ua]? = some u) :
    RoundTrip env now t (some a) m =
      let v : RequestView := q.retarget { u with Scheme := "https" } (preparedHeader now (m.header q.Header))
      let s := t.Service.getD env.DefaultService
      let w := env.Sign s v keys
      let rt := t.Transport.getD env.httpDefaultTransport
      { heap := { reqs := m.reqs ++ [w.retarget (some m.urls.length) (some m.hdrs.length)],
                  urls := m.urls ++ [w.URL],
                  hdrs := m.hdrs ++ [w.Header] },
        trace := [.sign s v keys, .roundTrip rt w],
        result := .returned (env.roundTrip rt w).1 (env.roundTrip rt w).2 } :=
  RoundTrip_shape env now t a m keys q ua u hk hr hq (getElem?_append_one_of_some _ _ _ _ hu)

/-- A call whose request has no URL to read stops at `*r.URL`, having only
allocated. -/
theorem RoundTrip_nil_url {σ ρ : Type} (env : Env σ ρ) (now : Int) (t : Transport σ ρ) (a : Addr)
    (m : Heap) (keys : Keys) (q : RequestCell)
    (hk : t.Keys = some keys) (hr : m.reqs[a]? = some q)
    (hq : (q.URL.bind fun ua => (m.urls ++ [default])[ua]?) = none) :
    RoundTrip env now t (some a) m =
      { heap := { reqs := m.reqs ++ [{ q with URL := some m.urls.length }],
                  urls := m.urls ++ [default],
                  hdrs := m.hdrs },
        trace := [],
        result := .panicked } := by
  have ha : a < m.reqs.length := lt_length_of_getElem? _ _ _ hr
  simp only [RoundTrip, hk, Heap.newRequest, Heap.request, Option.bind, Heap.updRequest,
    updateAt_append_last, Heap.newURL, Heap.url]
  simp only [List.getElem?_append_left ha, hr]
  cases hq' : q.URL with
  | none => simp
  | some ua =>
    rw [hq'] at hq
    simp only [Option.bind] at hq
    simp [hq]

/-- Whatever a call does, every cell that was allocated before it reads the
same after it. -/
theorem RoundTrip_frame {σ ρ : Type} (env : Env σ ρ) (now : Int) (t : Transport σ ρ) (a : Addr)
    (m : Heap) (q : RequestCell) (hr : m.reqs[a]? = some q) :
    (∀ (i : Nat) (x : RequestCell), m.reqs[i]? = some x → (RoundTrip env now t (some a) m).heap.reqs[i]? = some x) ∧
    (∀ (i : Nat) (x : URL), m.urls[i]? = some x → (RoundTrip env now t (some a) m).heap.urls[i]? = some x) ∧
    (∀ (i : Nat) (x : Header), m.hdrs[i]? = some x → (RoundTrip env now t (some a) m).heap.hdrs[i]? = some x) := by
  cases hk : t.Keys with
  | none =>
    simp only [RoundTrip, hk]
    refine ⟨?_, ?_, ?_⟩ <;> intro i x h <;> exact h
  | some keys =>
    cases hq : (q.URL.bind fun ua => (m.urls ++ [default])[ua]?) with
    | none =>
      rw [RoundTrip_nil_url env now t a m keys q hk hr hq]
      refine ⟨?_, ?_, ?_⟩
      · intro i x h
        exact getElem?_append_one_of_some _ _ _ _ h
      · intro i x h
        exact getElem?_append_one_of_some _ _ _ _ h
      · intro i x h
        exact h
    | some u =>
      cases hq' : q.URL with
      | none => rw [hq'] at hq; cases hq
      | some ua =>
        rw [hq'] at hq
        rw [RoundTrip_shape env now t a m keys q ua u hk hr hq' hq]
        exact ⟨fun _ _ h => getElem?_append_one_of_some _ _ _ _ h,
          fun _ _ h => getElem?_append_one_of_some _ _ _ _ h,
          fun _ _ h => getElem?_append_one_of_some _ _ _ _ h⟩

/-! ## Lemmas: the header map handed to the signer -/

theorem Header.Get_Date_eq_empty_iff (d : Header) (hn : d.NoEmpty) :
    d.Get "Date" = "" ↔
      (d.entry "Date" = none ∨ ∃ rest, d.entry "Date" = some ("" :: rest)) := by
  unfold Header.Get Header.values
  rw [canonical_Date]
  cases he : d.entry "Date" with
  | none => simp
  | some vs =>
    cases vs with
    | nil => exact absurd he (hn "Date")
    | cons v rest =>
      simp only [Option.getD_some, Option.some.injEq, List.cons.injEq, exists_and_left,
        exists_eq', and_true]
      constructor
      · intro h
        exact Or.inr h
      · intro h
        rcases h with h | h
        · cases h
        · exact h

theorem preparedHeader_values (now : Int) (src : Header) (c : String) (hc : c ≠ "Date") :
    (preparedHeader now src).values c = src.contrib c := by
  unfold preparedHeader
  simp only
  split
  · rw [Header.values_Set, canonical_Date, if_neg (fun h => hc h.symm), copyHeader_nil_values]
  · exact copyHeader_nil_values src c

theorem preparedHeader_Get_Date (now : Int) (src : Header) :
    (preparedHeader now src).Get "Date" ≠ "" := by
  unfold preparedHeader
  simp only
  split
  · rw [Header.Get_Set]
    exact httpTimeFormat_ne_empty now
  · assumption

theorem preparedHeader_of_Get (now : Int) (src : Header)
    (h : (copyHeader [] src).Get "Date" ≠ "") : preparedHeader now src = copyHeader [] src := by
  unfold preparedHeader
  simp only [h, if_false]

theorem preparedHeader_of_not_Get (now : Int) (src : Header)
    (h : (copyHeader [] src).Get "Date" = "") :
    preparedHeader now src = (copyHeader [] src).Set "Date" (httpTimeFormat now) := by
  unfold preparedHeader
  simp only [h, if_true]

theorem signerCalls_eq {σ ρ : Type} (env : Env σ ρ) (now : Int) (t : Transport σ ρ) (a : Addr)
    (m : Heap) (keys : Keys) (q : RequestCell) (ua : Addr) (u : URL)
    (hk : t.Keys = some keys) (hr : m.reqs[a]? = some q) (hq : q.URL = some ua)
    (hu : m.urls[ua]? = some u) :
    (RoundTrip env now t (some a) m).signerCalls =
      [(t.Service.getD env.DefaultService,
        q.retarget { u with Scheme := "https" } (preparedHeader now (m.header q.Header)), keys)] := by
  rw [RoundTrip_eq env now t a m keys q ua u hk hr hq hu]
  rfl

theorem preparedHeader_values_of_kept (now : Int) (src : Header) (c : String)
    (hc : ¬ (c = "Date" ∧ (copyHeader [] src).Get "Date" = "")) :
    (preparedHeader now src).values c = src.contrib c := by
  by_cases h1 : c = "Date"
  · have h2 : (copyHeader [] src).Get "Date" ≠ "" := fun h => hc ⟨h1, h⟩
    rw [preparedHeader_of_Get now src h2, copyHeader_nil_values]
  · exact preparedHeader_values now src c h1

/-! ## The claims -/

/-- C1: for every transport whose `Keys` field is nil and every request pointer
(nil included), whatever the heap, the `Service` and the `Transport` fields,
`RoundTrip` returns a nil response with the error "s3: uninitialized keys",
calls neither a signer nor a delegate, and leaves the heap as it was. -/
theorem RoundTrip_uninitialized_keys {σ ρ : Type} (env : Env σ ρ) (now : Int)
    (service : Option σ) (rt : Option ρ) (r : Option Addr) (m : Heap) :
    (RoundTrip env now { Keys := none, Service := service, Transport := rt } r m).result =
        .returned none (some "s3: uninitialized keys") ∧
      (RoundTrip env now { Keys := none, Service := service, Transport := rt } r m).trace = [] ∧
      (RoundTrip env now { Keys := none, Service := service, Transport := rt } r m).signerCalls = [] ∧
      (RoundTrip env now { Keys := none, Service := service, Transport := rt } r m).delegateCalls = [] ∧
      (RoundTrip env now { Keys := none, Service := service, Transport := rt } r m).heap = m :=
  ⟨rfl, rfl, rfl, rfl, rfl⟩

/-- C2: after a call, the caller's request struct, the URL it points to (scheme
included) and the header map it refers to (every key and value sequence) read
exactly as before the call, whatever the signer and the delegate do with the
copy they are handed. -/
theorem RoundTrip_original_unmodified {σ ρ : Type} (env : Env σ ρ) (now : Int)
    (t : Transport σ ρ) (a : Addr) (m : Heap) (q : RequestCell) (hr : m.reqs[a]? = some q) :
    (RoundTrip env now t (some a) m).heap.reqs[a]? = some q ∧
    (∀ (ua : Addr) (u : URL), q.URL = some ua → m.urls[ua]? = some u →
      (RoundTrip env now t (some a) m).heap.urls[ua]? = some u) ∧
    (∀ (ha : Addr) (h : Header), q.Header = some ha → m.hdrs[ha]? = some h →
      (RoundTrip env now t (some a) m).heap.hdrs[ha]? = some h) := by
  have hf := RoundTrip_frame env now t a m q hr
  exact ⟨hf.1 a q hr, fun ua u _ hu => hf.2.1 ua u hu, fun ha h _ hh => hf.2.2 ha h hh⟩

/-- C2, at a request for `s3://bucket/key` with one header: the original reads
as before although the signer was handed, and changed, an `https` copy. -/
theorem RoundTrip_original_unmodified_witness :
    (exHeap [("x-amz-acl", ["public-read"])]).reqs[0]? = some exRequest ∧
    (RoundTrip exEnv 784111777 exTransport (some 0)
      (exHeap [("x-amz-acl", ["public-read"])])).heap.reqs[0]? = some exRequest ∧
    (RoundTrip exEnv 784111777 exTransport (some 0)
      (exHeap [("x-amz-acl", ["public-read"])])).heap.urls[0]? = some exURL ∧
    (RoundTrip exEnv 784111777 exTransport (some 0)
      (exHeap [("x-amz-acl", ["public-read"])])).heap.hdrs[0]? =
        some [("x-amz-acl", ["public-read"])] ∧
    (RoundTrip exEnv 784111777 exTransport (some 0)
      (exHeap [("x-amz-acl", ["public-read"])])).delegateCalls.map
        (fun c => (c.2.URL.Scheme, c.2.Header)) =
        [("https", [("X-Amz-Acl", ["public-read"]), ("Date", ["Sun, 06 Nov 1994 08:49:37 GMT"]),
          ("Authorization", ["0"])])] :=
  have h := RoundTrip_original_unmodified exEnv 784111777 exTransport 0
    (exHeap [("x-amz-acl", ["public-read"])]) exRequest rfl
  ⟨rfl, h.1, h.2.1 0 exURL rfl rfl, h.2.2 0 _ rfl rfl, by decide⟩

/-- C3: with keys configured, the request handed to the signer has URL scheme
"https" and every other URL component equal to the original's, whatever the
original scheme was; if the signer leaves the URL alone, that is the URL the
delegate receives. -/
theorem RoundTrip_scheme_https {σ ρ : Type} (env : Env σ ρ) (now : Int) (t : Transport σ ρ)
    (a : Addr) (m : Heap) (keys : Keys) (q : RequestCell) (ua : Addr) (u : URL)
    (hk : t.Keys = some keys) (hr : m.reqs[a]? = some q) (hq : q.URL = some ua)
    (hu : m.urls[ua]? = some u) :
    ∃ (s : σ) (v : RequestView) (rt : ρ) (w : RequestView),
      (RoundTrip env now t (some a) m).trace = [.sign s v keys, .roundTrip rt w] ∧
      v.URL.Scheme = "https" ∧ v.URL.Opaque = u.Opaque ∧ v.URL.User = u.User ∧
      v.URL.Host = u.Host ∧ v.URL.Path = u.Path ∧ v.URL.RawPath = u.RawPath ∧
      v.URL.OmitHost = u.OmitHost ∧ v.URL.ForceQuery = u.ForceQuery ∧
      v.URL.RawQuery = u.RawQuery ∧ v.URL.Fragment = u.Fragment ∧
      v.URL.RawFragment = u.RawFragment ∧
      ((∀ (s1 : σ) (v1 : RequestView) (k1 : Keys), (env.Sign s1 v1 k1).URL = v1.URL) →
        w.URL = { u with Scheme := "https" }) := by
  rw [RoundTrip_eq env now t a m keys q ua u hk hr hq hu]
  refine ⟨_, _, _, _, rfl, rfl, rfl, rfl, rfl, rfl, rfl, rfl, rfl, rfl, rfl, rfl, ?_⟩
  intro hs
  rw [hs]
  rfl

/-- C3, at `s3://bucket/key` with a signer that changes nothing: the delegate
receives `https://bucket/key`. -/
theorem RoundTrip_scheme_https_witness :
    (exHeap []).reqs[0]? = some exRequest ∧ (exHeap []).urls[0]? = some exURL ∧
    exURL.Scheme = "s3" ∧
    (RoundTrip idEnv 784111777 exTransport (some 0) (exHeap [])).delegateCalls.map
        (fun c => c.2.URL) =
      [{ (default : URL) with Scheme := "https", Host := "bucket", Path := "/key" }] := by
  obtain ⟨s, v, rt, w, ht, _, _, _, _, _, _, _, _, _, _, _, hw⟩ :=
    RoundTrip_scheme_https idEnv 784111777 exTransport 0 (exHeap []) exKeys exRequest 0 exURL
      rfl rfl rfl rfl
  refine ⟨rfl, rfl, rfl, ?_⟩
  simp only [Outcome.delegateCalls, ht, List.filterMap_cons, List.filterMap_nil, List.map_cons,
    List.map_nil]
  rw [hw (fun _ _ _ => rfl)]
  rfl

/-- C7: with keys configured, `RoundTrip` calls one delegate once, after the
signer: the `Transport` field when it is set, `http.DefaultTransport` when it
is nil.  The delegate is handed the copy as the signer left it, and what it
returns (response and error) is what `RoundTrip` returns. -/
theorem RoundTrip_delegates {σ ρ : Type} (env : Env σ ρ) (now : Int) (t : Transport σ ρ)
    (a : Addr) (m : Heap) (keys : Keys) (q : RequestCell) (ua : Addr) (u : URL)
    (hk : t.Keys = some keys) (hr : m.reqs[a]? = some q) (hq : q.URL = some ua)
    (hu : m.urls[ua]? = some u) :
    ∃ (s : σ) (v : RequestView) (rt : ρ) (w : RequestView),
      (RoundTrip env now t (some a) m).trace = [.sign s v keys, .roundTrip rt w] ∧
      (RoundTrip env now t (some a) m).delegateCalls = [(rt, w)] ∧
      (∀ x, t.Transport = some x → rt = x) ∧
      (t.Transport = none → rt = env.httpDefaultTransport) ∧
      w = env.Sign s v keys ∧
      (RoundTrip env now t (some a) m).result =
        .returned (env.roundTrip rt w).1 (env.roundTrip rt w).2 := by
  rw [RoundTrip_eq env now t a m keys q ua u hk hr hq hu]
  refine ⟨_, _, _, _, rfl, rfl, ?_, ?_, rfl, rfl⟩
  · intro x hx
    rw [hx]
    rfl
  · intro hx
    rw [hx]
    rfl

/-- C7, at a transport with delegate 5 configured: delegate 5 is the one
called, and its answer is returned with a nil error. -/
theorem RoundTrip_delegates_witness :
    (exHeap []).reqs[0]? = some exRequest ∧ (exHeap []).urls[0]? = some exURL ∧
    (RoundTrip exEnv 784111777 { exTransport with Transport := some 5 } (some 0)
        (exHeap [])).delegateCalls.map (fun c => c.1) = [5] ∧
    (RoundTrip exEnv 784111777 { exTransport with Transport := some 5 } (some 0)
        (exHeap [])).result = .returned (some ⟨200, "https://bucket/key via 5"⟩) none := by
  obtain ⟨s, v, rt, w, _, hd, hrt, _, _, hres⟩ :=
    RoundTrip_delegates exEnv 784111777 { exTransport with Transport := some 5 } 0 (exHeap [])
      exKeys exRequest 0 exURL rfl rfl rfl rfl
  refine ⟨rfl, rfl, ?_, ?_⟩
  · rw [hd, hrt 5 rfl]
    rfl
  · decide

/-- C9: with keys configured, every field of the request handed to the signer
other than the URL and the header map equals the field of the original. -/
theorem RoundTrip_copies_fields {σ ρ : Type} (env : Env σ ρ) (now : Int) (t : Transport σ ρ)
    (a : Addr) (m : Heap) (keys : Keys) (q : RequestCell) (ua : Addr) (u : URL)
    (hk : t.Keys = some keys) (hr : m.reqs[a]? = some q) (hq : q.URL = some ua)
    (hu : m.urls[ua]? = some u) :
    ∃ (s : σ) (v : RequestView),
      (RoundTrip env now t (some a) m).signerCalls = [(s, v, keys)] ∧
      v.Method = q.Method ∧ v.Proto = q.Proto ∧ v.ProtoMajor = q.ProtoMajor ∧
      v.ProtoMinor = q.ProtoMinor ∧ v.Body = q.Body ∧ v.GetBody = q.GetBody ∧
      v.ContentLength = q.ContentLength ∧ v.TransferEncoding = q.TransferEncoding ∧
      v.Close = q.Close ∧ v.Host = q.Host ∧ v.Form = q.Form ∧ v.PostForm = q.PostForm ∧
      v.MultipartForm = q.MultipartForm ∧ v.Trailer = q.Trailer ∧
      v.RemoteAddr = q.RemoteAddr ∧ v.RequestURI = q.RequestURI ∧ v.TLS = q.TLS ∧
      v.Cancel = q.Cancel ∧ v.Response = q.Response ∧ v.ctx = q.ctx ∧
      v.URL = { u with Scheme := "https" } := by
  rw [RoundTrip_eq env now t a m keys q ua u hk hr hq hu]
  exact ⟨_, _, rfl, rfl, rfl, rfl, rfl, rfl, rfl, rfl, rfl, rfl, rfl, rfl, rfl, rfl, rfl, rfl,
    rfl, rfl, rfl, rfl, rfl, rfl⟩

/-- C9, at a GET request for host "bucket". -/
theorem RoundTrip_copies_fields_witness :
    (exHeap []).reqs[0]? = some exRequest ∧ (exHeap []).urls[0]? = some exURL ∧
    (RoundTrip exEnv 784111777 exTransport (some 0) (exHeap [])).signerCalls.map
      (fun c => (c.2.1.Method, c.2.1.Host, c.2.1.ContentLength)) = [("GET", "bucket", 0)] := by
  obtain ⟨s, v, hs, h1, _, _, _, _, _, h2, _, _, h3, _⟩ :=
    RoundTrip_copies_fields exEnv 784111777 exTransport 0 (exHeap []) exKeys exRequest 0 exURL
      rfl rfl rfl rfl
  refine ⟨rfl, rfl, ?_⟩
  rw [hs]
  simp only [List.map_cons, List.map_nil, h1, h2, h3]
  rfl

/-- C8: with keys configured, `RoundTrip` calls one signer once, before the
delegate: the `Service` field when it is set, `DefaultService` when it is nil.
The signer is handed the copy with scheme "https", the copied headers and a
non-empty `Date` header, together with the keys.  The choice is made in each
call: a later call on a transport whose `Service` field has been changed uses
the new field. -/
theorem RoundTrip_signs_once {σ ρ : Type} (env : Env σ ρ) (now : Int) (t : Transport σ ρ)
    (a : Addr) (m : Heap) (keys : Keys) (q : RequestCell) (ua : Addr) (u : URL)
    (hk : t.Keys = some keys) (hr : m.reqs[a]? = some q) (hq : q.URL = some ua)
    (hu : m.urls[ua]? = some u) :
    ∃ (s : σ) (v : RequestView) (rt : ρ) (w : RequestView),
      (RoundTrip env now t (some a) m).trace = [.sign s v keys, .roundTrip rt w] ∧
      (RoundTrip env now t (some a) m).signerCalls = [(s, v, keys)] ∧
      (∀ x, t.Service = some x → s = x) ∧
      (t.Service = none → s = env.DefaultService) ∧
      v.URL.Scheme = "https" ∧
      v.Header = preparedHeader now (m.header q.Header) ∧
      (∀ c, c ≠ "Date" → v.Header.values c = (m.header q.Header).contrib c) ∧
      v.Header.Get "Date" ≠ "" ∧
      (∀ (s2 : Option σ) (now2 : Int), ∃ (v2 : RequestView) (rt2 : ρ) (w2 : RequestView),
        (RoundTrip env now2 { t with Service := s2 } (some a)
            (RoundTrip env now t (some a) m).heap).trace =
          [.sign (s2.getD env.DefaultService) v2 keys, .roundTrip rt2 w2]) := by
  have hf := RoundTrip_frame env now t a m q hr
  refine ⟨t.Service.getD env.DefaultService,
    q.retarget { u with Scheme := "https" } (preparedHeader now (m.header q.Header)),
    t.Transport.getD env.httpDefaultTransport,
    env.Sign (t.Service.getD env.DefaultService)
      (q.retarget { u with Scheme := "https" } (preparedHeader now (m.header q.Header))) keys,
    ?_, ?_, ?_, ?_, rfl, rfl, ?_, ?_, ?_⟩
  · rw [RoundTrip_eq env now t a m keys q ua u hk hr hq hu]
  · exact signerCalls_eq env now t a m keys q ua u hk hr hq hu
  · intro x hx
    rw [hx]
    rfl
  · intro hx
    rw [hx]
    rfl
  · intro c hc
    exact preparedHeader_values now _ c hc
  · exact preparedHeader_Get_Date now _
  · intro s2 now2
    rw [RoundTrip_eq env now2 { t with Service := s2 } a _ keys q ua u hk (hf.1 a q hr) hq
      (hf.2.1 ua u hu)]
    exact ⟨_, _, _, rfl⟩

/-- C8, at a transport with no service configured, then with service 7: the
first call signs with the default service 0, the second with 7. -/
theorem RoundTrip_signs_once_witness :
    (exHeap []).reqs[0]? = some exRequest ∧ (exHeap []).urls[0]? = some exURL ∧
    (RoundTrip exEnv 784111777 exTransport (some 0) (exHeap [])).signerCalls.map
      (fun c => (c.1, c.2.1.URL.Scheme, c.2.1.Header, c.2.2)) =
      [(0, "https", [("Date", ["Sun, 06 Nov 1994 08:49:37 GMT"])], exKeys)] ∧
    (RoundTrip exEnv 784111778 { exTransport with Service := some 7 } (some 0)
      (RoundTrip exEnv 784111777 exTransport (some 0) (exHeap [])).heap).signerCalls.map
      (fun c => c.1) = [7] := by
  obtain ⟨s, v, rt, w, _, hs, _, hd, _, _, _, _, h2⟩ :=
    RoundTrip_signs_once exEnv 784111777 exTransport 0 (exHeap []) exKeys exRequest 0 exURL
      rfl rfl rfl rfl
  obtain ⟨v2, rt2, w2, ht2⟩ := h2 (some 7) 784111778
  refine ⟨rfl, rfl, by decide, ?_⟩
  simp only [Outcome.signerCalls, ht2, List.filterMap_cons, List.filterMap_nil, List.map_cons,
    List.map_nil]
  rfl

/-- C5: with keys configured and clock reading `now`, the `Date` header of the
copy handed to the signer is set to `now` in UTC in the HTTP date format, as
the single value under `Date`, when after the copy of the headers `Date` is
absent or its first value is empty; otherwise the copied headers are handed
over as they are.  The value written is the HTTP date
`Www, DD Mon YYYY HH:MM:SS GMT` of the calendar date and time of day in UTC
that `now` denotes: there are a year, month, day, hour, minute and second of
the calendar whose instant is `now`, and the value is their HTTP date, with
the weekday of that day.  The clock reading 784111777 renders as
"Sun, 06 Nov 1994 08:49:37 GMT". -/
theorem RoundTrip_Date_default {σ ρ : Type} (env : Env σ ρ) (now : Int) (t : Transport σ ρ)
    (a : Addr) (m : Heap) (keys : Keys) (q : RequestCell) (ua : Addr) (u : URL)
    (hk : t.Keys = some keys) (hr : m.reqs[a]? = some q) (hq : q.URL = some ua)
    (hu : m.urls[ua]? = some u) :
    ∃ (s : σ) (v : RequestView),
      (RoundTrip env now t (some a) m).signerCalls = [(s, v, keys)] ∧
      (((copyHeader [] (m.header q.Header)).entry "Date" = none ∨
          (∃ rest, (copyHeader [] (m.header q.Header)).entry "Date" = some ("" :: rest))) →
        v.Header = (copyHeader [] (m.header q.Header)).Set "Date" (httpTimeFormat now) ∧
        v.Header.entry "Date" = some [httpTimeFormat now] ∧
        (∀ c, c ≠ "Date" → v.Header.entry c = (copyHeader [] (m.header q.Header)).entry c)) ∧
      (¬ ((copyHeader [] (m.header q.Header)).entry "Date" = none ∨
          (∃ rest, (copyHeader [] (m.header q.Header)).entry "Date" = some ("" :: rest))) →
        v.Header = copyHeader [] (m.header q.Header)) ∧
      (∃ (y : Int) (mo d hh mi ss : Nat), 1 ≤ mo ∧ mo ≤ 12 ∧ 1 ≤ d ∧ d ≤ daysInMonth y mo ∧
        hh < 24 ∧ mi < 60 ∧ ss < 60 ∧ unixOfUTC y mo d hh mi ss = now ∧
        httpTimeFormat now = httpDate (weekdayOf (daysOfCivil y mo d)) d mo y hh mi ss) ∧
      httpTimeFormat 784111777 = "Sun, 06 Nov 1994 08:49:37 GMT" := by
  refine ⟨_, _, signerCalls_eq env now t a m keys q ua u hk hr hq hu, ?_, ?_,
    httpTimeFormat_spec now, by decide⟩
  · intro h
    have hg := (Header.Get_Date_eq_empty_iff _
      (copyHeader_NoEmpty [] (m.header q.Header) Header.NoEmpty_nil)).mpr h
    have hp := preparedHeader_of_not_Get now _ hg
    refine ⟨hp, ?_, ?_⟩
    · show (preparedHeader now (m.header q.Header)).entry "Date" = _
      rw [hp, Header.entry_Set, canonical_Date, if_pos rfl]
    · intro c hc
      show (preparedHeader now (m.header q.Header)).entry c = _
      rw [hp, Header.entry_Set, canonical_Date, if_neg (fun h => hc h.symm)]
  · intro h
    have hg : (copyHeader [] (m.header q.Header)).Get "Date" ≠ "" := fun h0 =>
      h ((Header.Get_Date_eq_empty_iff _
        (copyHeader_NoEmpty [] (m.header q.Header) Header.NoEmpty_nil)).mp h0)
    exact preparedHeader_of_Get now _ hg

/-- C5, at a request without headers and the clock reading 784111777, which is
08:49:37 UTC on Sunday 6 November 1994. -/
theorem RoundTrip_Date_default_witness :
    (exHeap []).reqs[0]? = some exRequest ∧ (exHeap []).urls[0]? = some exURL ∧
    unixOfUTC 1994 11 6 8 49 37 = 784111777 ∧ weekdayOf (daysOfCivil 1994 11 6) = 0 ∧
    httpDate 0 6 11 1994 8 49 37 = "Sun, 06 Nov 1994 08:49:37 GMT" ∧
    (RoundTrip idEnv 784111777 exTransport (some 0) (exHeap [])).signerCalls.map
      (fun c => c.2.1.Header.entry "Date") = [some ["Sun, 06 Nov 1994 08:49:37 GMT"]] := by
  obtain ⟨s, v, hs, h1, _, _, h3⟩ :=
    RoundTrip_Date_default idEnv 784111777 exTransport 0 (exHeap []) exKeys exRequest 0 exURL
      rfl rfl rfl rfl
  refine ⟨rfl, rfl, by decide, by decide, by decide, ?_⟩
  rw [hs]
  simp only [List.map_cons, List.map_nil]
  rw [(h1 (Or.inl rfl)).2.1, h3]

/-- C4, refuted as stated: a request whose header map holds a timestamp under
`Date` (read back by `Get`) and an empty value under the spelling `date`.  When
`range` visits `date` first, the copy holds `Date: ["", timestamp]`, `Get`
reads the empty first value, and the signer is handed the clock reading in
place of the caller's timestamp. -/
theorem Date_preset_overwritten :
    Header.WF [("date", [""]), ("Date", ["Tue, 15 Nov 1994 08:12:31 GMT"])] ∧
    Header.Get [("date", [""]), ("Date", ["Tue, 15 Nov 1994 08:12:31 GMT"])] "Date" =
      "Tue, 15 Nov 1994 08:12:31 GMT" ∧
    Header.values [("date", [""]), ("Date", ["Tue, 15 Nov 1994 08:12:31 GMT"])] "Date" =
      ["Tue, 15 Nov 1994 08:12:31 GMT"] ∧
    (RoundTrip idEnv 784111777 exTransport (some 0)
      (exHeap [("date", [""]), ("Date", ["Tue, 15 Nov 1994 08:12:31 GMT"])])).signedHeaders =
      [[("Date", ["Sun, 06 Nov 1994 08:49:37 GMT"])]] := by
  refine ⟨?_, ?_, ?_, ?_⟩
  · unfold Header.WF
    decide
  · decide
  · decide
  · decide

/-- C4, amended: when the original header map holds, under a key with canonical
form `Date`, a value sequence whose first value is not empty, and no other key
of the map has canonical form `Date`, the signer is handed exactly that
sequence under `Date`, and the header map it is handed is the plain copy: the
clock reading is not written. -/
theorem RoundTrip_Date_preserved {σ ρ : Type} (env : Env σ ρ) (now : Int) (t : Transport σ ρ)
    (a : Addr) (m : Heap) (keys : Keys) (q : RequestCell) (ua : Addr) (u : URL)
    (k v : String) (rest : List String)
    (hk : t.Keys = some keys) (hr : m.reqs[a]? = some q) (hq : q.URL = some ua)
    (hu : m.urls[ua]? = some u) (hw : (m.header q.Header).WF)
    (hm : (k, v :: rest) ∈ m.header q.Header) (hck : CanonicalMIMEHeaderKey k = "Date")
    (hv : v ≠ "")
    (huniq : ∀ k1 vv1, (k1, vv1) ∈ m.header q.Header → CanonicalMIMEHeaderKey k1 = "Date" →
      k1 = k) :
    ∃ (s : σ) (x : RequestView),
      (RoundTrip env now t (some a) m).signerCalls = [(s, x, keys)] ∧
      x.Header.values "Date" = v :: rest ∧
      x.Header = copyHeader [] (m.header q.Header) := by
  have h1 : (m.header q.Header).contrib "Date" = v :: rest := by
    have := Header.contrib_of_unique (m.header q.Header) hw k (v :: rest) hm (by
      intro k1 vv1 hm1 hc1
      rw [hck] at hc1
      exact huniq k1 vv1 hm1 hc1)
    rw [hck] at this
    exact this
  have h2 : (copyHeader [] (m.header q.Header)).Get "Date" ≠ "" := by
    unfold Header.Get
    rw [canonical_Date, copyHeader_nil_values, h1]
    exact hv
  have h3 := preparedHeader_of_Get now _ h2
  refine ⟨_, _, signerCalls_eq env now t a m keys q ua u hk hr hq hu, ?_, h3⟩
  show (preparedHeader now (m.header q.Header)).values "Date" = _
  rw [h3, copyHeader_nil_values, h1]

/-- C4, amended, at a request that carries `date: Tue, 15 Nov 1994 08:12:31 GMT`
and one more header. -/
theorem RoundTrip_Date_preserved_witness :
    (exHeap [("x-amz-acl", ["public-read"]), ("date", ["Tue, 15 Nov 1994 08:12:31 GMT"])]).reqs[0]? =
      some exRequest ∧
    (RoundTrip idEnv 784111777 exTransport (some 0)
      (exHeap [("x-amz-acl", ["public-read"]),
        ("date", ["Tue, 15 Nov 1994 08:12:31 GMT"])])).signedHeaders =
      [[("X-Amz-Acl", ["public-read"]), ("Date", ["Tue, 15 Nov 1994 08:12:31 GMT"])]] := by
  obtain ⟨s, x, hs, _, hx⟩ :=
    RoundTrip_Date_preserved idEnv 784111777 exTransport 0
      (exHeap [("x-amz-acl", ["public-read"]), ("date", ["Tue, 15 Nov 1994 08:12:31 GMT"])])
      exKeys exRequest 0 exURL "date" "Tue, 15 Nov 1994 08:12:31 GMT" []
      rfl rfl rfl rfl (by unfold Header.WF; decide) (by decide) (by decide) (by decide)
      (by
        intro k1 vv1 hm1 hc1
        have hm2 : (k1, vv1) = ("x-amz-acl", ["public-read"]) ∨
            (k1, vv1) = ("date", ["Tue, 15 Nov 1994 08:12:31 GMT"]) := by
          simpa [exHeap, exRequest, Heap.header] using hm1
        rcases hm2 with h | h
        · cases h
          exact absurd hc1 (by decide)
        · cases h
          rfl)
  refine ⟨rfl, ?_⟩
  rw [Outcome.signedHeaders, hs]
  simp only [List.map_cons, List.map_nil, hx]
  decide

/-- C6, refuted as stated: a value stored under the key `x-amz-acl` is handed to
the signer under `X-Amz-Acl`, and nothing is stored under `x-amz-acl`; and the
two values of a `Date` header whose first value is empty are both dropped, the
signer being handed the clock reading alone. -/
theorem header_values_moved_or_dropped :
    (RoundTrip idEnv 784111777 exTransport (some 0)
      (exHeap [("x-amz-acl", ["public-read"])])).signedHeaders =
      [[("X-Amz-Acl", ["public-read"]), ("Date", ["Sun, 06 Nov 1994 08:49:37 GMT"])]] ∧
    Header.entry [("X-Amz-Acl", ["public-read"]), ("Date", ["Sun, 06 Nov 1994 08:49:37 GMT"])]
      "x-amz-acl" = none ∧
    (RoundTrip idEnv 784111777 exTransport (some 0)
      (exHeap [("Date", ["", "Tue, 15 Nov 1994 08:12:31 GMT"])])).signedHeaders =
      [[("Date", ["Sun, 06 Nov 1994 08:49:37 GMT"])]] := by
  refine ⟨?_, ?_, ?_⟩ <;> decide

/-- C6, amended: for every key `k` of the original header map with value
sequence `vv`, unless the canonical form of `k` is `Date` and the copied `Date`
header reads as empty, the signer is handed, under the canonical form of `k`,
the value sequences of the original keys with that canonical form, each whole
and in its original order, one after the other in iteration order: `vv` is
among them, and the stored sequence is exactly `vv` when `k` is the only
original key with that canonical form.  In the excepted case the signer is
handed the rendered clock reading alone under `Date`. -/
theorem RoundTrip_header_values {σ ρ : Type} (env : Env σ ρ) (now : Int) (t : Transport σ ρ)
    (a : Addr) (m : Heap) (keys : Keys) (q : RequestCell) (ua : Addr) (u : URL)
    (hk : t.Keys = some keys) (hr : m.reqs[a]? = some q) (hq : q.URL = some ua)
    (hu : m.urls[ua]? = some u) :
    ∃ (s : σ) (x : RequestView),
      (RoundTrip env now t (some a) m).signerCalls = [(s, x, keys)] ∧
      (∀ k vv, (k, vv) ∈ m.header q.Header →
        ¬ (CanonicalMIMEHeaderKey k = "Date" ∧
            (copyHeader [] (m.header q.Header)).Get "Date" = "") →
          x.Header.values (CanonicalMIMEHeaderKey k) =
            (m.header q.Header).contrib (CanonicalMIMEHeaderKey k) ∧
          vv.Sublist (x.Header.values (CanonicalMIMEHeaderKey k)) ∧
          ((m.header q.Header).WF →
            (∀ k1 vv1, (k1, vv1) ∈ m.header q.Header →
              CanonicalMIMEHeaderKey k1 = CanonicalMIMEHeaderKey k → k1 = k) →
            x.Header.values (CanonicalMIMEHeaderKey k) = vv)) ∧
      ((copyHeader [] (m.header q.Header)).Get "Date" = "" →
        x.Header.values "Date" = [httpTimeFormat now]) := by
  refine ⟨_, _, signerCalls_eq env now t a m keys q ua u hk hr hq hu, ?_, ?_⟩
  · intro k vv hm hc
    have h1 : (preparedHeader now (m.header q.Header)).values (CanonicalMIMEHeaderKey k) =
        (m.header q.Header).contrib (CanonicalMIMEHeaderKey k) :=
      preparedHeader_values_of_kept now _ _ hc
    refine ⟨h1, ?_, ?_⟩
    · show vv.Sublist ((preparedHeader now (m.header q.Header)).values (CanonicalMIMEHeaderKey k))
      rw [h1]
      exact Header.sublist_contrib _ k vv hm
    · intro hw huniq
      show (preparedHeader now (m.header q.Header)).values (CanonicalMIMEHeaderKey k) = vv
      rw [h1]
      exact Header.contrib_of_unique _ hw k vv hm huniq
  · intro hg
    show (preparedHeader now (m.header q.Header)).values "Date" = _
    rw [preparedHeader_of_not_Get now _ hg, Header.values_Set, canonical_Date, if_pos rfl]

/-- C6, amended, at a request with two values under `x-amz-meta-tag` and one
under `Content-Type`. -/
theorem RoundTrip_header_values_witness :
    (exHeap [("x-amz-meta-tag", ["a", "b"]), ("Content-Type", ["text/plain"])]).reqs[0]? =
      some exRequest ∧
    (RoundTrip idEnv 784111777 exTransport (some 0)
      (exHeap [("x-amz-meta-tag", ["a", "b"]), ("Content-Type", ["text/plain"])])).signedHeaders.map
        (fun h => h.values "X-Amz-Meta-Tag") = [["a", "b"]] := by
  obtain ⟨s, x, hs, hx, _⟩ :=
    RoundTrip_header_values idEnv 784111777 exTransport 0
      (exHeap [("x-amz-meta-tag", ["a", "b"]), ("Content-Type", ["text/plain"])])
      exKeys exRequest 0 exURL rfl rfl rfl rfl
  have h1 := (hx "x-amz-meta-tag" ["a", "b"] (by decide) (by decide)).1
  refine ⟨rfl, ?_⟩
  rw [Outcome.signedHeaders, hs]
  simp only [List.map_cons, List.map_nil]
  have h2 : CanonicalMIMEHeaderKey "x-amz-meta-tag" = "X-Amz-Meta-Tag" := by decide
  rw [h2] at h1
  rw [h1]
  decide

/-- C10, refuted as stated: a source key with no values (`Accept`, canonical) is
absent from the destination, so the destination does not equal the source; and
the keys `x y` and `X y`, which differ only in letter case, are not merged,
because a key holding a space is not canonicalised. -/
theorem copyHeader_not_identity :
    CanonicalMIMEHeaderKey "Accept" = "Accept" ∧
    copyHeader [] [("Accept", [])] = [] ∧
    Header.entry (copyHeader [] [("Accept", [])]) "Accept" = none ∧
    Header.entry [("Accept", [])] "Accept" = some [] ∧
    foldBytes "x y" = foldBytes "X y" ∧
    copyHeader [] [("x y", ["a"]), ("X y", ["b"])] = [("x y", ["a"]), ("X y", ["b"])] := by
  refine ⟨?_, ?_, ?_, ?_, ?_, ?_⟩ <;> decide

/-- C10, amended: after `copyHeader(dst, src)` the destination holds under each
key `c` its former values followed by the value sequences of the source keys
with canonical form `c`, each whole and in order, in iteration order.  For an
empty destination: if the keys of `src` are all canonical and each holds at
least one value, destination and source hold the same entries; a key that is
not canonical is absent from the destination; and two source keys made of
header token bytes that differ only in letter case have the same canonical
form, under which the values of both are stored. -/
theorem copyHeader_spec (dst src : Header) :
    (∀ c, (copyHeader dst src).values c = dst.values c ++ src.contrib c) ∧
    (src.WF → (∀ k vv, (k, vv) ∈ src → CanonicalMIMEHeaderKey k = k ∧ vv ≠ []) →
      ∀ k, (copyHeader [] src).entry k = src.entry k) ∧
    (∀ k, CanonicalMIMEHeaderKey k ≠ k → (copyHeader [] src).entry k = none) ∧
    (∀ k1 v1 k2 v2, (k1, v1) ∈ src → (k2, v2) ∈ src → isTokenKey k1 = true →
      foldBytes k1 = foldBytes k2 →
        CanonicalMIMEHeaderKey k1 = CanonicalMIMEHeaderKey k2 ∧
        v1.Sublist ((copyHeader [] src).values (CanonicalMIMEHeaderKey k1)) ∧
        v2.Sublist ((copyHeader [] src).values (CanonicalMIMEHeaderKey k1))) := by
  refine ⟨fun c => copyHeader_values dst src c, ?_, ?_, ?_⟩
  · intro hw hc k
    rw [copyHeader_nil_entry,
      Header.contrib_eq_values_of_canonical src hw (fun k vv hm => (hc k vv hm).1)]
    unfold Header.values
    cases he : src.entry k with
    | none => simp
    | some vv =>
      have := (hc k vv (Header.mem_of_entry src k vv he)).2
      simp [this]
  · intro k hk
    rw [copyHeader_nil_entry, Header.contrib_eq_nil_of_not_canonical src k hk]
    simp
  · intro k1 v1 k2 v2 hm1 hm2 ht hf
    have hc := canonical_fold k1 k2 ht hf
    refine ⟨hc, ?_, ?_⟩
    · rw [copyHeader_nil_values]
      exact Header.sublist_contrib src k1 v1 hm1
    · rw [copyHeader_nil_values, hc]
      exact Header.sublist_contrib src k2 v2 hm2

/-- C10, amended, at a source with canonical keys, and at a source that spells
one key in two ways. -/
theorem copyHeader_spec_witness :
    Header.WF [("Date", ["d"]), ("X-Amz-Acl", ["p", "q"])] ∧
    (∀ k, (copyHeader [] [("Date", ["d"]), ("X-Amz-Acl", ["p", "q"])]).entry k =
      Header.entry [("Date", ["d"]), ("X-Amz-Acl", ["p", "q"])] k) ∧
    isTokenKey "x-amz-acl" = true ∧ foldBytes "x-amz-acl" = foldBytes "X-AMZ-ACL" ∧
    CanonicalMIMEHeaderKey "x-amz-acl" = CanonicalMIMEHeaderKey "X-AMZ-ACL" ∧
    copyHeader [] [("x-amz-acl", ["p"]), ("X-AMZ-ACL", ["q"])] = [("X-Amz-Acl", ["p", "q"])] := by
  have h := copyHeader_spec [] [("Date", ["d"]), ("X-Amz-Acl", ["p", "q"])]
  have h2 := copyHeader_spec [] [("x-amz-acl", ["p"]), ("X-AMZ-ACL", ["q"])]
  refine ⟨by unfold Header.WF; decide, ?_, by decide, by decide, ?_, by decide⟩
  · refine h.2.1 (by unfold Header.WF; decide) ?_
    intro k vv hm
    have hm2 : (k, vv) = ("Date", ["d"]) ∨ (k, vv) = ("X-Amz-Acl", ["p", "q"]) := by
      simpa using hm
    rcases hm2 with h3 | h3
    · cases h3
      exact ⟨by decide, by simp⟩
    · cases h3
      exact ⟨by decide, by simp⟩
  · exact (h2.2.2.2 "x-amz-acl" ["p"] "X-AMZ-ACL" ["q"] (by decide) (by decide) (by decide)
      (by decide)).1

end S3
